import Mathlib

/-
  Verification of the PmLogCtl command-line tool (webosose/pmlogctl).

  Shallow embedding of src/PmLogCtl.c and src/PmLogCtl.h.  C strings are
  modeled as lists of characters without the terminating NUL byte; the
  external PmLogLib registry and logging calls are modeled as oracle
  parameters collected in an `Env` structure; `qsort` is modeled by a
  sorter function parameter, constrained in the theorems to the C
  standard's contract (the output is a permutation of the input, sorted
  by the comparator; the order of elements comparing equal is
  unspecified).
-/

namespace PmLogCtl

/-- C strings are modeled as lists of characters, without the terminating
NUL byte. -/
abbrev CStr := List Char

/-- The NUL byte. -/
def nulChar : Char := Char.ofNat 0

/-- Shorthand turning a Lean string literal into a modeled C string. -/
def toL (s : String) : CStr := s.toList

/-- A well-formed C string contains no interior NUL byte. -/
def NulFree (s : CStr) : Prop := nulChar ∉ s

instance (s : CStr) : Decidable (NulFree s) :=
  inferInstanceAs (Decidable (nulChar ∉ s))

/-- strchr: 0-based index of the first occurrence of character `c` in `s`,
`none` when `c` does not occur (strchr returning NULL). -/
def strchrIdx : CStr → Char → Option Nat
  | [], _ => none
  | a :: t, c => if a = c then some 0 else (strchrIdx t c).map (· + 1)

/-- Reading byte `i` of a NUL-terminated buffer holding `s`: bytes at or
past the end of the string read as NUL. -/
def cstrByte (s : CStr) (i : Nat) : Char := s.getD i nulChar

/-- `memcmp(s, t, k) == 0` over NUL-terminated string buffers: the first
`k` bytes coincide, where bytes past a string's end are its NUL
terminator. -/
def memcmpEqFirst (s t : CStr) (k : Nat) : Bool :=
  (List.range k).all fun i => cstrByte s i == cstrByte t i

/-- Embedding of `PrvIsWildcardContextName` (PmLogCtl.c:129): the match
string contains a `*`. -/
def PrvIsWildcardContextName (matchContextName : CStr) : Bool :=
  matchContextName.contains '*'

/-- Embedding of `PrvMatchContextName` (PmLogCtl.c:147).  `none` (a NULL
match string) matches everything; without a `*` the names must be equal
(strcmp); with a first `*` at index `k`, `k = 0` matches everything and
otherwise the first `k` bytes are compared with memcmp. -/
def PrvMatchContextName (contextName : CStr) (matchContextName : Option CStr) : Bool :=
  match matchContextName with
  | none => true
  | some m =>
    match strchrIdx m '*' with
    | none => contextName == m
    | some k => if k = 0 then true else memcmpEqFirst contextName m k

/-- The context matcher exactly as claim C1 words it: nil pattern matches
everything; no `*` means byte-for-byte equality; a first `*` at index `k`
means the first `k` bytes of the candidate equal the first `k` bytes of
the pattern, and everything after the first `*` is ignored. -/
def MatchesSpec (candidateName : CStr) (pattern : Option CStr) : Bool :=
  match pattern with
  | none => true
  | some p =>
    match strchrIdx p '*' with
    | none => candidateName == p
    | some k => candidateName.take k == p.take k

theorem strchrIdx_lt_length : ∀ {s : CStr} {c : Char} {k : Nat},
    strchrIdx s c = some k → k < s.length := by
  intro s
  induction s with
  | nil => intro c k h; simp [strchrIdx] at h
  | cons a t ih =>
    intro c k h
    by_cases hac : a = c
    · simp [strchrIdx, hac] at h
      simp only [List.length_cons]
      omega
    · simp [strchrIdx, hac] at h
      obtain ⟨k', hk', hkk⟩ := h
      have := ih hk'
      simp only [List.length_cons]
      omega

theorem memcmpEqFirst_iff {name p : CStr} {k : Nat} (hk : k ≤ p.length)
    (hnf : NulFree p) :
    memcmpEqFirst name p k = true ↔ name.take k = p.take k := by
  simp only [memcmpEqFirst, List.all_eq_true, List.mem_range, beq_iff_eq]
  constructor
  · intro hm
    have hlen : k ≤ name.length := by
      by_contra hlt
      push_neg at hlt
      have h1 := hm name.length hlt
      have h2 : cstrByte name name.length = nulChar := by
        simp [cstrByte, List.getD_eq_default]
      have h3 : cstrByte p name.length ≠ nulChar := by
        simp only [cstrByte]
        rw [List.getD_eq_getElem _ _ (by omega)]
        intro hc
        exact hnf (hc ▸ List.getElem_mem _)
      exact h3 (h1 ▸ h2)
    apply List.ext_getElem
    · simp only [List.length_take]; omega
    · intro i hi1 hi2
      simp only [List.length_take] at hi1
      have hik : i < k := lt_of_lt_of_le hi1 (min_le_left _ _)
      have := hm i hik
      simp only [cstrByte] at this
      rw [List.getD_eq_getElem _ _ (by omega), List.getD_eq_getElem _ _ (by omega)] at this
      simpa [List.getElem_take] using this
  · intro hb i hik
    have hlen : k ≤ name.length := by
      have h1 : (name.take k).length = (p.take k).length := by rw [hb]
      simp only [List.length_take] at h1
      omega
    simp only [cstrByte]
    have h2 : (name.take k).getD i nulChar = (p.take k).getD i nulChar := by
      rw [hb]
    rw [List.getD_eq_getElem _ _ (by simp only [List.length_take]; omega),
        List.getD_eq_getElem _ _ (by simp only [List.length_take]; omega)] at h2
    rw [List.getD_eq_getElem _ _ (by omega), List.getD_eq_getElem _ _ (by omega)]
    simpa [List.getElem_take] using h2

theorem memcmpEqFirst_eq_take {name p : CStr} {k : Nat} (hk : k ≤ p.length)
    (hnf : NulFree p) :
    memcmpEqFirst name p k = (name.take k == p.take k) := by
  rcases hb : (name.take k == p.take k) with _ | _
  · rcases hm : memcmpEqFirst name p k with _ | _
    · rfl
    · exact absurd ((memcmpEqFirst_iff hk hnf).mp hm)
        (by simpa [beq_eq_false_iff_ne] using hb)
  · exact (memcmpEqFirst_iff hk hnf).mpr (by simpa using hb)

/-- C1: the context matcher `PrvMatchContextName` coincides with the
reference definition `MatchesSpec` on every valid (NUL-free) pattern: nil
matches everything, a pattern without `*` matches exactly its own name,
and a pattern with its first `*` at index `k` matches exactly the names
whose first `k` bytes equal the pattern's first `k` bytes — everything
after the first `*` is irrelevant. -/
theorem C1_match_eq_spec (contextName : CStr) (pattern : Option CStr)
    (hpf : ∀ p ∈ pattern, NulFree p) :
    PrvMatchContextName contextName pattern = MatchesSpec contextName pattern := by
  match pattern with
  | none => rfl
  | some p =>
    simp only [PrvMatchContextName, MatchesSpec]
    match hs : strchrIdx p '*' with
    | none => rfl
    | some k =>
      have hk : k < p.length := strchrIdx_lt_length hs
      by_cases hk0 : k = 0
      · subst hk0; simp
      · simp only [if_neg hk0]
        exact memcmpEqFirst_eq_take (le_of_lt hk) (hpf p rfl)

/-- Witness for C1 at a concrete name and multi-wildcard pattern. -/
theorem C1_match_eq_spec_w :
    (∀ p ∈ some (toL "net*zzz*vv"), NulFree p) ∧
    PrvMatchContextName (toL "network.wifi") (some (toL "net*zzz*vv"))
      = MatchesSpec (toL "network.wifi") (some (toL "net*zzz*vv")) :=
  ⟨by decide, C1_match_eq_spec (toL "network.wifi") (some (toL "net*zzz*vv")) (by decide)⟩

/-- tolower in the C locale: fold ASCII A–Z to a–z. -/
def tolowerC (c : Char) : Char :=
  if 'A' ≤ c ∧ c ≤ 'Z' then Char.ofNat (c.toNat + 32) else c

/-- Sign of POSIX strcasecmp on NUL-free strings: lexicographic
comparison of the case-folded bytes, a shorter string ordering before its
extensions (its NUL terminator is below every other byte). -/
def strcasecmp : CStr → CStr → Int
  | [], [] => 0
  | [], _ :: _ => -1
  | _ :: _, [] => 1
  | a :: s, b :: t =>
    if (tolowerC a).toNat < (tolowerC b).toNat then -1
    else if (tolowerC b).toNat < (tolowerC a).toNat then 1
    else strcasecmp s t

theorem strcasecmp_flip : ∀ s t : CStr, strcasecmp t s = - strcasecmp s t := by
  intro s
  induction s with
  | nil => intro t; cases t <;> simp [strcasecmp]
  | cons a s ih =>
    intro t
    cases t with
    | nil => simp [strcasecmp]
    | cons b t =>
      simp only [strcasecmp]
      rcases Nat.lt_trichotomy (tolowerC a).toNat (tolowerC b).toNat with h | h | h
      · rw [if_neg (by omega), if_pos h, if_pos h]
        decide
      · rw [if_neg (by omega), if_neg (by omega), if_neg (by omega), if_neg (by omega)]
        exact ih t
      · rw [if_pos h, if_neg (by omega), if_pos h]

/-- Embedding of `ContextInfo_t` (PmLogCtl.c:192): an opaque context
handle (the PmLogContext pointer, modeled as a number) together with the
fetched context name. -/
structure ContextInfo where
  context : Nat
  contextName : CStr
  deriving DecidableEq, Repr

/-- The external registry as enumerated through `PmLogGetNumContexts` /
`PmLogGetIndContext` / `PmLogGetContextName`: the list of entries in
index order.  These external calls are modeled as totally succeeding
over this list, with the count query returning its length. -/
abbrev Registry := List ContextInfo

/-- The ordering induced on snapshot entries by the comparator
`SortCmpContextInfoByName` (PmLogCtl.c:211): strcasecmp of the names is
≤ 0.  This is a total preorder, not antisymmetric. -/
def caseLeP (a b : ContextInfo) : Prop :=
  strcasecmp a.contextName b.contextName ≤ 0

instance : DecidableRel caseLeP :=
  fun _ _ => inferInstanceAs (Decidable (_ ≤ _))

/-- A snapshot is sorted when consecutive entries compare ≤ 0 under
`SortCmpContextInfoByName`. -/
def SortedByName (l : List ContextInfo) : Prop := List.Chain' caseLeP l

/-- The C standard's contract for the `qsort` call in `PrvGetContextList`
(PmLogCtl.c:288): the output is a permutation of the input, sorted by the
comparator; the relative order of entries whose names compare equal is
unspecified, so any function with this property models the call. -/
def ValidQsort (sorter : List ContextInfo → List ContextInfo) : Prop :=
  ∀ l, (sorter l).Perm l ∧ SortedByName (sorter l)

/-- Error codes of the external library that this tool distinguishes:
`kPmLogErr_None` for success, and one representative nonzero code
(`kPmLogErr_Unknown`) — the tool only ever tests against `None` and
forwards other codes. -/
inductive PmLogErr where
  | kPmLogErr_None
  | kPmLogErr_Unknown
  deriving DecidableEq, Repr

/-- The enumeration loop of `PrvGetContextList` (PmLogCtl.c:248–284).
`acc` holds the matching entries stored so far (`numContexts` is its
length).  Before fetching entry `i` the stored count is bounds-checked
against the snapshot capacity `PMLOG_MAX_NUM_CONTEXTS + 1` (the dimension
of the `contextInfos` array); after a match a second (unreachable) check
repeats the comparison before incrementing.  Per-entry fetches from the
external registry are modeled as always succeeding. -/
def getContextLoop (maxNum : Nat) (matchContextName : Option CStr) :
    List ContextInfo → List ContextInfo → Except PmLogErr (List ContextInfo)
  | acc, [] => .ok acc
  | acc, e :: rest =>
    if acc.length < maxNum + 1 then
      if PrvMatchContextName e.contextName matchContextName then
        if maxNum + 1 ≤ acc.length then .error .kPmLogErr_Unknown
        else getContextLoop maxNum matchContextName (acc ++ [e]) rest
      else getContextLoop maxNum matchContextName acc rest
    else .error .kPmLogErr_Unknown

/-- Embedding of `PrvGetContextList` (PmLogCtl.c:223).  `maxNum` is the
compile-time constant `PMLOG_MAX_NUM_CONTEXTS`; its value is defined in
the external header PmLogLib.h (outside this repository), so it is kept
as a parameter.  `sorter` models the qsort call with comparator
`SortCmpContextInfoByName` (see `ValidQsort`); qsort runs only when at
least one entry was retained. -/
def PrvGetContextList (sorter : List ContextInfo → List ContextInfo)
    (maxNum : Nat) (reg : Registry) (matchContextName : Option CStr) :
    Except PmLogErr (List ContextInfo) :=
  if reg.length ≤ 0 then .error .kPmLogErr_Unknown
  else
    match getContextLoop maxNum matchContextName [] reg with
    | .error e => .error e
    | .ok l => .ok (if 0 < l.length then sorter l else l)

theorem getContextLoop_ok_length {maxNum : Nat} {pat : Option CStr} :
    ∀ {reg acc res : List ContextInfo},
      getContextLoop maxNum pat acc reg = .ok res →
      acc.length ≤ maxNum + 1 → res.length ≤ maxNum + 1 := by
  intro reg
  induction reg with
  | nil =>
    intro acc res h hacc
    simp only [getContextLoop] at h
    cases h
    exact hacc
  | cons e rest ih =>
    intro acc res h hacc
    simp only [getContextLoop] at h
    split at h
    · split at h
      · split at h
        · cases h
        · refine ih h ?_
          simp only [List.length_append, List.length_cons, List.length_nil]
          omega
      · exact ih h hacc
    · cases h

theorem getContextLoop_ok_filter {maxNum : Nat} {pat : Option CStr} :
    ∀ {reg acc res : List ContextInfo},
      getContextLoop maxNum pat acc reg = .ok res →
      res = acc ++ reg.filter (fun e => PrvMatchContextName e.contextName pat) := by
  intro reg
  induction reg with
  | nil =>
    intro acc res h
    simp only [getContextLoop] at h
    cases h
    simp
  | cons e rest ih =>
    intro acc res h
    simp only [getContextLoop] at h
    split at h
    · split at h
      case isTrue hmatch =>
        split at h
        · cases h
        · rw [ih h]
          simp [List.filter_cons, hmatch]
      case isFalse hmatch =>
        rw [ih h]
        simp [List.filter_cons, hmatch]
    · cases h

theorem getContextLoop_overflow {maxNum : Nat} {pat : Option CStr} :
    ∀ {reg acc : List ContextInfo},
      acc.length ≤ maxNum + 1 →
      maxNum + 1 < acc.length + reg.countP (fun e => PrvMatchContextName e.contextName pat) →
      getContextLoop maxNum pat acc reg = .error .kPmLogErr_Unknown := by
  intro reg
  induction reg with
  | nil =>
    intro acc h1 h2
    exfalso
    simp only [List.countP_nil] at h2
    omega
  | cons e rest ih =>
    intro acc h1 h2
    simp only [getContextLoop]
    by_cases hlen : acc.length < maxNum + 1
    · rw [if_pos hlen]
      by_cases hm : PrvMatchContextName e.contextName pat = true
      · rw [if_pos hm, if_neg (by omega)]
        simp only [List.countP_cons, hm, if_true] at h2
        refine ih ?_ ?_
        · simp only [List.length_append, List.length_cons, List.length_nil]; omega
        · simp only [List.length_append, List.length_cons, List.length_nil]
          omega
      · rw [if_neg hm]
        simp [List.countP_cons, hm] at h2
        exact ih h1 (by omega)
    · rw [if_neg hlen]

/-- Linear insertion, used to realize the qsort contract with concrete
functions. -/
def insertBy (test : ContextInfo → ContextInfo → Bool) (e : ContextInfo) :
    List ContextInfo → List ContextInfo
  | [] => [e]
  | x :: xs => if test e x then e :: x :: xs else x :: insertBy test e xs

/-- Insertion sort over an arbitrary insertion test. -/
def sortCIBy (test : ContextInfo → ContextInfo → Bool) :
    List ContextInfo → List ContextInfo
  | [] => []
  | x :: xs => insertBy test x (sortCIBy test xs)

theorem insertBy_perm (test : ContextInfo → ContextInfo → Bool) (e : ContextInfo) :
    ∀ l, (insertBy test e l).Perm (e :: l) := by
  intro l
  induction l with
  | nil => simp [insertBy]
  | cons x xs ih =>
    simp only [insertBy]
    split
    · exact List.Perm.refl _
    · exact (ih.cons x).trans (List.Perm.swap e x xs)

theorem insertBy_head (test : ContextInfo → ContextInfo → Bool) (e : ContextInfo) :
    ∀ xs : List ContextInfo,
      (insertBy test e xs).head? = some e ∨ (insertBy test e xs).head? = xs.head? := by
  intro xs
  cases xs with
  | nil => left; rfl
  | cons z zs =>
    simp only [insertBy]
    split
    · left; rfl
    · right; rfl

theorem insertBy_chain (test : ContextInfo → ContextInfo → Bool)
    (h1 : ∀ a b, test a b = true → caseLeP a b)
    (h2 : ∀ a b, test a b = false → caseLeP b a) (e : ContextInfo) :
    ∀ l, List.Chain' caseLeP l → List.Chain' caseLeP (insertBy test e l) := by
  intro l
  induction l with
  | nil => intro _; simp [insertBy]
  | cons x xs ih =>
    intro hc
    simp only [insertBy]
    rcases ht : test e x with _ | _
    · simp only [Bool.false_eq_true, if_false]
      rw [List.chain'_cons'] at hc ⊢
      obtain ⟨hx, hxs⟩ := hc
      refine ⟨?_, ih hxs⟩
      intro y hy
      rcases insertBy_head test e xs with hh | hh
      · rw [hh] at hy
        cases hy
        exact h2 _ _ ht
      · rw [hh] at hy
        exact hx y hy
    · simp only [if_true]
      rw [List.chain'_cons]
      exact ⟨h1 _ _ ht, hc⟩

theorem sortCIBy_valid (test : ContextInfo → ContextInfo → Bool)
    (h1 : ∀ a b, test a b = true → caseLeP a b)
    (h2 : ∀ a b, test a b = false → caseLeP b a) :
    ValidQsort (sortCIBy test) := by
  intro l
  constructor
  · induction l with
    | nil => simp [sortCIBy]
    | cons x xs ih => exact (insertBy_perm test x _).trans (ih.cons x)
  · induction l with
    | nil => simp [sortCIBy, SortedByName]
    | cons x xs ih => exact insertBy_chain test h1 h2 x _ ih

/-- A qsort model that keeps entries with strcasecmp-equal names in input
order (a stable realization of the contract). -/
def qsortStable : List ContextInfo → List ContextInfo :=
  sortCIBy fun a b => decide (strcasecmp a.contextName b.contextName ≤ 0)

/-- A qsort model that reverses the relative order of entries with
strcasecmp-equal names: an equally legitimate realization of the qsort
contract. -/
def qsortTieRev : List ContextInfo → List ContextInfo :=
  sortCIBy fun a b => decide (strcasecmp a.contextName b.contextName < 0)

theorem qsortStable_valid : ValidQsort qsortStable := by
  apply sortCIBy_valid
  · intro a b h
    exact of_decide_eq_true h
  · intro a b h
    have hx := of_decide_eq_false h
    unfold caseLeP at hx ⊢
    rw [strcasecmp_flip]
    omega

theorem qsortTieRev_valid : ValidQsort qsortTieRev := by
  apply sortCIBy_valid
  · intro a b h
    have hx := of_decide_eq_true h
    unfold caseLeP
    omega
  · intro a b h
    have hx := of_decide_eq_false h
    unfold caseLeP
    rw [strcasecmp_flip]
    omega

/-- C4 (amended): under any sorter with the permutation half of the qsort
contract, a successful listing returns at most
`PMLOG_MAX_NUM_CONTEXTS + 1` entries — the actual capacity of the
snapshot array, one MORE than the compile-time maximum context count —
and whenever the matching entries exceed that capacity the listing fails
with an error instead of truncating or overflowing. -/
theorem C4_snapshot_capacity (sorter : List ContextInfo → List ContextInfo)
    (maxNum : Nat) (reg : Registry) (pat : Option CStr)
    (hperm : ∀ l, (sorter l).Perm l) :
    (∀ l, PrvGetContextList sorter maxNum reg pat = .ok l → l.length ≤ maxNum + 1) ∧
    (maxNum + 1 < reg.countP (fun e => PrvMatchContextName e.contextName pat) →
      PrvGetContextList sorter maxNum reg pat = .error .kPmLogErr_Unknown) := by
  constructor
  · intro l hl
    unfold PrvGetContextList at hl
    by_cases hreg : reg.length ≤ 0
    · rw [if_pos hreg] at hl; cases hl
    · rw [if_neg hreg] at hl
      cases hres : getContextLoop maxNum pat [] reg with
      | error e => rw [hres] at hl; cases hl
      | ok lr =>
        rw [hres] at hl
        cases hl
        have hlr := getContextLoop_ok_length hres (by simp)
        split
        · rw [(hperm lr).length_eq]
          exact hlr
        · exact hlr
  · intro hcount
    have hle : reg.countP (fun e => PrvMatchContextName e.contextName pat) ≤ reg.length :=
      List.countP_le_length _
    unfold PrvGetContextList
    rw [if_neg (by omega)]
    rw [getContextLoop_overflow (by simp) (by simpa using hcount)]

/-- A registry of three contexts, all matching the nil pattern. -/
def regThree : Registry :=
  [⟨0, toL "alpha"⟩, ⟨1, toL "beta"⟩, ⟨2, toL "gamma"⟩]

/-- C4 counterexample: with compile-time maximum 2, the snapshot array
holds 3 entries, and a registry reporting 3 contexts makes the lister
succeed with count 3 — exceeding the claimed bound (the compile-time
maximum) and not failing even though the registry reported more contexts
than that maximum.  The same run of the C code happens for any value of
`PMLOG_MAX_NUM_CONTEXTS` once the registry holds one more matching
context than it. -/
theorem C4_cex :
    PrvGetContextList qsortStable 2 regThree none
        = .ok [⟨0, toL "alpha"⟩, ⟨1, toL "beta"⟩, ⟨2, toL "gamma"⟩] ∧
      2 < ([⟨0, toL "alpha"⟩, ⟨1, toL "beta"⟩, ⟨2, toL "gamma"⟩] : List ContextInfo).length := by
  exact ⟨by rfl, by decide⟩

/-- Witness for C4 at a concrete overfull registry. -/
theorem C4_snapshot_capacity_w :
    PrvGetContextList qsortStable 1 regThree none = .error .kPmLogErr_Unknown :=
  (C4_snapshot_capacity qsortStable 1 regThree none
    (fun l => (qsortStable_valid l).1)).2 (by decide)

theorem getContextList_ok_spec (sorter : List ContextInfo → List ContextInfo)
    (maxNum : Nat) (reg : Registry) (pat : Option CStr) (l : List ContextInfo)
    (hq : ValidQsort sorter)
    (h : PrvGetContextList sorter maxNum reg pat = .ok l) :
    SortedByName l ∧
      l.Perm (reg.filter (fun e => PrvMatchContextName e.contextName pat)) := by
  unfold PrvGetContextList at h
  by_cases hreg : reg.length ≤ 0
  · rw [if_pos hreg] at h; cases h
  · rw [if_neg hreg] at h
    cases hres : getContextLoop maxNum pat [] reg with
    | error e => rw [hres] at h; cases h
    | ok lr =>
      rw [hres] at h
      cases h
      have hfil : lr = reg.filter (fun e => PrvMatchContextName e.contextName pat) := by
        simpa using getContextLoop_ok_filter hres
      split
      next => exact ⟨(hq lr).2, hfil ▸ (hq lr).1⟩
      next hl0 =>
        have : lr = [] := by
          cases lr with
          | nil => rfl
          | cons a t => exact absurd (by simp) hl0
        subst this
        exact ⟨by simp [SortedByName], hfil ▸ List.Perm.refl _⟩

/-- C5 (amended): whenever listing succeeds, the snapshot is a
permutation of the matching registry entries, sorted ascending by the
total preorder induced by strcasecmp on names (consecutive entries
compare ≤ 0).  The qsort contract leaves the relative order of entries
with strcasecmp-equal names unspecified, so stability is NOT guaranteed
(see the counterexample). -/
theorem C5_sorted_snapshot (sorter : List ContextInfo → List ContextInfo)
    (maxNum : Nat) (reg : Registry) (pat : Option CStr) (l : List ContextInfo)
    (hq : ValidQsort sorter)
    (h : PrvGetContextList sorter maxNum reg pat = .ok l) :
    SortedByName l ∧
      l.Perm (reg.filter (fun e => PrvMatchContextName e.contextName pat)) :=
  getContextList_ok_spec sorter maxNum reg pat l hq h

/-- Two contexts whose names compare equal under strcasecmp but differ
byte-for-byte. -/
def ctxAbc : ContextInfo := ⟨0, toL "Abc"⟩

/-- See `ctxAbc`. -/
def ctxaBC : ContextInfo := ⟨1, toL "aBC"⟩

/-- C5 counterexample: `qsortTieRev` satisfies the qsort contract
(`qsortTieRev_valid`), yet on a registry listing `ctxAbc` before `ctxaBC`
— two entries whose names compare equal under strcasecmp — the listing
returns them in the opposite order, so the sort is not stable. -/
theorem C5_cex :
    strcasecmp (toL "Abc") (toL "aBC") = 0 ∧
      PrvGetContextList qsortTieRev 8 [ctxAbc, ctxaBC] none = .ok [ctxaBC, ctxAbc] ∧
      [ctxaBC, ctxAbc] ≠ [ctxAbc, ctxaBC] := by
  refine ⟨by decide, by rfl, by decide⟩

/-- Witness for C5 at a concrete registry enumerated out of order. -/
theorem C5_sorted_snapshot_w :
    SortedByName [(⟨0, toL "alpha"⟩ : ContextInfo), ⟨1, toL "beta"⟩] ∧
      ([(⟨0, toL "alpha"⟩ : ContextInfo), ⟨1, toL "beta"⟩]).Perm
        (([(⟨1, toL "beta"⟩ : ContextInfo), ⟨0, toL "alpha"⟩]).filter
          (fun e => PrvMatchContextName e.contextName none)) :=
  C5_sorted_snapshot qsortStable 8 [⟨1, toL "beta"⟩, ⟨0, toL "alpha"⟩] none
    [⟨0, toL "alpha"⟩, ⟨1, toL "beta"⟩] qsortStable_valid (by rfl)

/-- The `Result` enumeration (PmLogCtl.h:123); main maps RESULT_OK to
EXIT_SUCCESS and everything else to EXIT_FAILURE. -/
inductive Result where
  | RESULT_OK
  | RESULT_PARAM_ERR
  | RESULT_RUN_ERR
  | RESULT_HELP
  deriving DecidableEq, Repr

/-- One constructor per fprintf format string appearing in the sources;
the arguments are the values substituted for the format specifiers
(errno strings and the fixed help-text lines are elided). -/
inductive Msg where
  | noCommandSpecified
  | suggestHelp
  | invalidCommand (c : CStr)
  | contextNotFound (name : CStr)
  | noContextsMatched (pat : CStr)
  | invalidLevel (arg : CStr)
  | invalidParameter (arg : CStr)
  | contextNotSpecified
  | levelNotSpecified
  | messageNotSpecified
  | errorGettingContextsInfo (e : PmLogErr)
  | settingContextLevel (name : CStr)
  | errorSettingLevel (e : PmLogErr)
  | alreadyDefined (name : CStr)
  | errorDefiningContext (e : PmLogErr)
  | invalidContext (arg : CStr)
  | minimumParams
  | messageIdNotSpecified
  | contextIsNotSpecified
  | levelIsNotSpecified
  | keyValuePairWrong (tok : CStr)
  | errorLogging (e : PmLogErr)
  | dashPRequiresValue
  | errorOpeningKmsg
  | errorWritingKmsg
  | errorGettingFlushContext (e : PmLogErr)
  | showContext (name : CStr) (levelStr : CStr)
  | usageLine (i : Nat)
  | usageLevelLine (levelStr : Option CStr) (level : Int)
  deriving DecidableEq, Repr

/-- A message actually written, tagged with its stream. -/
inductive Output where
  | info (m : Msg)
  | err (m : Msg)
  deriving DecidableEq, Repr

/-- The InfoPrint macro (PmLogCtl.h:45): writes to stdout unless
flag_silence is set. -/
def InfoPrint (silence : Bool) (m : Msg) : List Output :=
  if silence then [] else [.info m]

/-- The ErrPrint macro (PmLogCtl.h:51): writes to stderr — but, exactly
like InfoPrint, only when flag_silence is not set. -/
def ErrPrint (silence : Bool) (m : Msg) : List Output :=
  if silence then [] else [.err m]

/-- Calls into the external library or kernel log that mutate state or
emit records, in the order they are made. -/
inductive Effect where
  | setLevel (context : Nat) (level : Int)
  | logString (context : Nat) (level : Int)
      (msgID : Option CStr) (kv : Option CStr) (msg : Option CStr)
  | logPrint (context : Nat) (level : Int) (msg : CStr)
  | getContext (name : CStr)
  | kmsgWrite (priority : Int) (msg : CStr)
  | logInfoFlush (context : Nat)
  deriving DecidableEq, Repr

/-- Modelled from the spec: severity levels are the integers -1
("none/unset") through 7 (most verbose); the named constants are defined
in the external PmLogLib headers.  7 is kPmLogLevel_Debug. -/
def kPmLogLevel_Debug : Int := 7

/-- Modelled from the spec: see `kPmLogLevel_Debug`; 5 is
kPmLogLevel_Notice. -/
def kPmLogLevel_Notice : Int := 5

/-- Modelled from the spec: see `kPmLogLevel_Debug`; 0 is
kPmLogLevel_Emergency. -/
def kPmLogLevel_Emergency : Int := 0

/-- Modelled from the spec: the registry's well-known global-context name
(kPmLogGlobalContextName in the external PmLogLib headers); its exact
spelling is irrelevant to the claims. -/
def kPmLogGlobalContextName : CStr := toL "<global>"

/-- Modelled from the spec: the handle of the global context
(kPmLogGlobalContext in the external PmLogLib headers). -/
def kPmLogGlobalContext : Nat := 0

/-- Embedding of PrvResolveContextNameAlias (PmLogCtl.c:303): "." is an
alias for the global context name. -/
def PrvResolveContextNameAlias (contextName : CStr) : CStr :=
  if contextName = ['.'] then kPmLogGlobalContextName else contextName

/-- The external PmLogFindContext call, modeled from the spec ("look up
context by exact name → handle, fails if absent"): exact-name lookup in
the registry. -/
def PmLogFindContext (reg : Registry) (name : CStr) : Except PmLogErr Nat :=
  match reg.find? (fun e => e.contextName == name) with
  | some e => .ok e.context
  | none => .error .kPmLogErr_Unknown

/-- Possible outcomes of the /dev/kmsg file operations in WriteKMsg. -/
inductive KmsgOutcome where
  | ok
  | openFail
  | writeFail
  deriving DecidableEq, Repr

/-- The ambient environment: the external registry, the external label
tables and library calls (as oracles), the compile-time maximum context
count, and the qsort model. -/
structure Env where
  sorter : List ContextInfo → List ContextInfo
  maxNumContexts : Nat
  reg : Registry
  levelOf : CStr → Option Int
  levelToStr : Int → Option CStr
  enabledLevelOf : Nat → Int
  setRes : Nat → Int → PmLogErr
  getCtxRes : CStr → Except PmLogErr Nat
  logRes : PmLogErr
  kmsgOutcome : KmsgOutcome

/-- Embedding of DoCmdSet's argument-parsing loop (PmLogCtl.c:440–493):
one pass over the arguments filling pattern, direct-match handle and
level, followed by the "not specified" checks.  All error exits carry
RESULT_PARAM_ERR. -/
def setParse (env : Env) (silence : Bool) :
    List CStr → Option CStr → Option Nat → Option Int →
    Except (List Output) (CStr × Option Nat × Int)
  | [], mc, mctx, lvl =>
    match mc with
    | none => .error (ErrPrint silence .contextNotSpecified)
    | some m =>
      match lvl with
      | none => .error (ErrPrint silence .levelNotSpecified)
      | some v => .ok (m, mctx, v)
  | arg :: rest, none, mctx, lvl =>
    let m := PrvResolveContextNameAlias arg
    if PrvIsWildcardContextName m then setParse env silence rest (some m) mctx lvl
    else
      match PmLogFindContext env.reg m with
      | .error _ => .error (ErrPrint silence (.contextNotFound m))
      | .ok h => setParse env silence rest (some m) (some h) lvl
  | arg :: rest, some mc, mctx, none =>
    match env.levelOf arg with
    | none => .error (ErrPrint silence (.invalidLevel arg))
    | some v => setParse env silence rest (some mc) mctx (some v)
  | arg :: _, some _, _, some _ => .error (ErrPrint silence (.invalidParameter arg))

/-- Per-entry mutation loop of DoCmdSet's wildcard path
(PmLogCtl.c:524–540): a notice, then the PmLogSetContextLevel call,
aborting on the first failing call. -/
def setApply (env : Env) (silence : Bool) (lvl : Int) :
    List ContextInfo → Result × List Output × List Effect
  | [] => (.RESULT_OK, [], [])
  | e :: rest =>
    let o0 := InfoPrint silence (.settingContextLevel e.contextName)
    match env.setRes e.context lvl with
    | .kPmLogErr_None =>
      let r := setApply env silence lvl rest
      (r.1, o0 ++ r.2.1, Effect.setLevel e.context lvl :: r.2.2)
    | er =>
      (.RESULT_RUN_ERR, o0 ++ ErrPrint silence (.errorSettingLevel er),
        [Effect.setLevel e.context lvl])

/-- Embedding of DoCmdSet (PmLogCtl.c:425).  malloc is modeled as
succeeding. -/
def DoCmdSet (env : Env) (silence : Bool) (args : List CStr) :
    Result × List Output × List Effect :=
  match setParse env silence (args.drop 1) none none none with
  | .error out => (.RESULT_PARAM_ERR, out, [])
  | .ok (matchContextName, matchedContext, lvl) =>
    match matchedContext with
    | none =>
      match PrvGetContextList env.sorter env.maxNumContexts env.reg (some matchContextName) with
      | .error e => (.RESULT_RUN_ERR, ErrPrint silence (.errorGettingContextsInfo e), [])
      | .ok l =>
        if l.length = 0 then
          (.RESULT_RUN_ERR, ErrPrint silence (.noContextsMatched matchContextName), [])
        else setApply env silence lvl l
    | some h =>
      let o0 := InfoPrint silence (.settingContextLevel matchContextName)
      match env.setRes h lvl with
      | .kPmLogErr_None => (.RESULT_OK, o0, [Effect.setLevel h lvl])
      | er => (.RESULT_RUN_ERR, o0 ++ ErrPrint silence (.errorSettingLevel er),
          [Effect.setLevel h lvl])

theorem getContextLoop_nomatch {maxNum : Nat} {pat : Option CStr} :
    ∀ {reg : List ContextInfo},
      reg.countP (fun e => PrvMatchContextName e.contextName pat) = 0 →
      getContextLoop maxNum pat [] reg = .ok [] := by
  intro reg
  induction reg with
  | nil => intro _; rfl
  | cons e rest ih =>
    intro h
    rw [List.countP_cons] at h
    have hm : PrvMatchContextName e.contextName pat = false := by
      rcases hx : PrvMatchContextName e.contextName pat with _ | _
      · rfl
      · rw [hx] at h; simp at h
    simp only [getContextLoop]
    rw [if_pos (by simp), if_neg (by simp [hm])]
    refine ih ?_
    rw [hm] at h
    simpa using h

/-- C6: a pattern that matches zero contexts makes `set` fail, and the
exact and wildcard cases surface as distinct user-visible error
conditions: an exact pattern that is not registered yields the "Context
not found" message (with RESULT_PARAM_ERR), while a wildcard pattern
with an empty match set yields the distinct "No contexts matched"
message (with RESULT_RUN_ERR).  The registry is assumed nonempty (the
library always registers the global context). -/
theorem C6_set_zero_matches (env : Env) (silence : Bool) (w patTok lvlTok : CStr) :
    (∀ er, PrvIsWildcardContextName (PrvResolveContextNameAlias patTok) = false →
      PmLogFindContext env.reg (PrvResolveContextNameAlias patTok) = .error er →
      DoCmdSet env silence [w, patTok, lvlTok]
        = (.RESULT_PARAM_ERR,
            ErrPrint silence (.contextNotFound (PrvResolveContextNameAlias patTok)), [])) ∧
    (∀ lvl, PrvIsWildcardContextName (PrvResolveContextNameAlias patTok) = true →
      env.levelOf lvlTok = some lvl →
      env.reg ≠ [] →
      env.reg.countP (fun e => PrvMatchContextName e.contextName
          (some (PrvResolveContextNameAlias patTok))) = 0 →
      DoCmdSet env silence [w, patTok, lvlTok]
        = (.RESULT_RUN_ERR,
            ErrPrint silence (.noContextsMatched (PrvResolveContextNameAlias patTok)), [])) ∧
    (∀ name, Msg.contextNotFound name ≠ Msg.noContextsMatched name) := by
  refine ⟨?_, ?_, ?_⟩
  · intro er hwild hfind
    simp only [DoCmdSet, List.drop_one, List.tail_cons, setParse]
    rw [if_neg (by simp [hwild])]
    rw [hfind]
  · intro lvl hwild hlvl hreg hcount
    simp only [DoCmdSet, List.drop_one, List.tail_cons, setParse]
    rw [if_pos hwild]
    simp only [setParse, hlvl]
    have hlist : PrvGetContextList env.sorter env.maxNumContexts env.reg
        (some (PrvResolveContextNameAlias patTok)) = .ok [] := by
      unfold PrvGetContextList
      rw [if_neg (by simp [List.length_eq_zero, hreg])]
      rw [getContextLoop_nomatch hcount]
      simp
    rw [hlist]
    simp
  · intro name
    simp

theorem setApply_all_ok (env : Env) (silence : Bool) (lvl : Int) :
    ∀ l : List ContextInfo,
      (∀ e ∈ l, env.setRes e.context lvl = .kPmLogErr_None) →
      setApply env silence lvl l
        = (.RESULT_OK,
           l.flatMap (fun e => InfoPrint silence (.settingContextLevel e.contextName)),
           l.map (fun e => Effect.setLevel e.context lvl)) := by
  intro l
  induction l with
  | nil => intro _; rfl
  | cons e rest ih =>
    intro h
    have he := h e (by simp)
    simp only [setApply, he]
    rw [ih (fun x hx => h x (by simp [hx]))]
    simp

theorem setApply_first_fail (env : Env) (silence : Bool) (lvl : Int) :
    ∀ (l1 : List ContextInfo) (e : ContextInfo) (l2 : List ContextInfo) (er : PmLogErr),
      (∀ x ∈ l1, env.setRes x.context lvl = .kPmLogErr_None) →
      env.setRes e.context lvl = er → er ≠ .kPmLogErr_None →
      setApply env silence lvl (l1 ++ e :: l2)
        = (.RESULT_RUN_ERR,
           (l1 ++ [e]).flatMap
             (fun x => InfoPrint silence (.settingContextLevel x.contextName))
             ++ ErrPrint silence (.errorSettingLevel er),
           (l1 ++ [e]).map (fun x => Effect.setLevel x.context lvl)) := by
  intro l1
  induction l1 with
  | nil =>
    intro e l2 er _ he her
    cases hx : env.setRes e.context lvl with
    | kPmLogErr_None => rw [hx] at he; exact absurd he.symm her
    | kPmLogErr_Unknown =>
      rw [hx] at he
      subst he
      simp [setApply, hx]
  | cons x l1 ih =>
    intro e l2 er h1 he her
    have hx := h1 x (by simp)
    simp only [List.cons_append, setApply, hx, List.append_eq]
    rw [ih e l2 er (fun y hy => h1 y (by simp [hy])) he her]
    simp

/-- C7: for a wildcard pattern whose snapshot is nonempty, `set` applies
the level to the matched contexts one by one in snapshot order — the
ascending case-insensitive order produced by the lister's sort — with a
per-context "Setting context level" notice before each call.  If the
call fails at some entry, every earlier entry has already been mutated,
the failing call itself was made, the loop aborts before any later
entry, and the command fails: no atomicity across contexts. -/
theorem C7_set_wildcard_order (env : Env) (silence : Bool)
    (w patTok lvlTok : CStr) (lvl : Int) (l : List ContextInfo)
    (hq : ValidQsort env.sorter)
    (hwild : PrvIsWildcardContextName (PrvResolveContextNameAlias patTok) = true)
    (hlvl : env.levelOf lvlTok = some lvl)
    (hlist : PrvGetContextList env.sorter env.maxNumContexts env.reg
        (some (PrvResolveContextNameAlias patTok)) = .ok l)
    (hne : l ≠ []) :
    SortedByName l ∧
    ((∀ e ∈ l, env.setRes e.context lvl = .kPmLogErr_None) →
      DoCmdSet env silence [w, patTok, lvlTok]
        = (.RESULT_OK,
           l.flatMap (fun e => InfoPrint silence (.settingContextLevel e.contextName)),
           l.map (fun e => Effect.setLevel e.context lvl))) ∧
    (∀ (l1 : List ContextInfo) (e : ContextInfo) (l2 : List ContextInfo) (er : PmLogErr),
      l = l1 ++ e :: l2 →
      (∀ x ∈ l1, env.setRes x.context lvl = .kPmLogErr_None) →
      env.setRes e.context lvl = er → er ≠ .kPmLogErr_None →
      DoCmdSet env silence [w, patTok, lvlTok]
        = (.RESULT_RUN_ERR,
           (l1 ++ [e]).flatMap
             (fun x => InfoPrint silence (.settingContextLevel x.contextName))
             ++ ErrPrint silence (.errorSettingLevel er),
           (l1 ++ [e]).map (fun x => Effect.setLevel x.context lvl))) := by
  have hmain : DoCmdSet env silence [w, patTok, lvlTok] = setApply env silence lvl l := by
    simp only [DoCmdSet, List.drop_one, List.tail_cons, setParse]
    rw [if_pos hwild]
    simp only [setParse, hlvl]
    rw [hlist]
    simp [List.length_eq_zero, hne]
  refine ⟨(getContextList_ok_spec _ _ _ _ _ hq hlist).1, ?_, ?_⟩
  · intro hall
    rw [hmain]
    exact setApply_all_ok env silence lvl l hall
  · intro l1 e l2 er hsplit h1 he her
    rw [hmain, hsplit]
    exact setApply_first_fail env silence lvl l1 e l2 er h1 he her

/-- Environment used by the C6 witness: one registered context "foo". -/
def envSetW : Env := {
  sorter := qsortStable, maxNumContexts := 8,
  reg := [⟨0, toL "foo"⟩],
  levelOf := fun s => if s = toL "err" then some 3 else none,
  levelToStr := fun _ => none,
  enabledLevelOf := fun _ => 0,
  setRes := fun _ _ => .kPmLogErr_None,
  getCtxRes := fun _ => .error .kPmLogErr_Unknown,
  logRes := .kPmLogErr_None, kmsgOutcome := .ok }

/-- Witness for C6: the exact pattern "nosuch" and the wildcard pattern
"zz*" both match nothing and produce the two distinct errors. -/
theorem C6_set_zero_matches_w :
    DoCmdSet envSetW false [toL "set", toL "nosuch", toL "err"]
      = (.RESULT_PARAM_ERR, [.err (.contextNotFound (toL "nosuch"))], []) ∧
    DoCmdSet envSetW false [toL "set", toL "zz*", toL "err"]
      = (.RESULT_RUN_ERR, [.err (.noContextsMatched (toL "zz*"))], []) :=
  ⟨(C6_set_zero_matches envSetW false (toL "set") (toL "nosuch") (toL "err")).1
      .kPmLogErr_Unknown (by decide) (by rfl),
   (C6_set_zero_matches envSetW false (toL "set") (toL "zz*") (toL "err")).2.1
      3 (by decide) (by rfl) (by decide) (by decide)⟩

/-- Environment used by the C7 witness: two contexts matching "a*", the
set-level call failing on the second handle. -/
def envSetFail : Env := {
  sorter := qsortStable, maxNumContexts := 8,
  reg := [⟨0, toL "aa"⟩, ⟨1, toL "ab"⟩],
  levelOf := fun s => if s = toL "err" then some 3 else none,
  levelToStr := fun _ => none,
  enabledLevelOf := fun _ => 0,
  setRes := fun h _ => if h = 1 then .kPmLogErr_Unknown else .kPmLogErr_None,
  getCtxRes := fun _ => .error .kPmLogErr_Unknown,
  logRes := .kPmLogErr_None, kmsgOutcome := .ok }

/-- Witness for C7: with the second set-level call failing, "aa" is
mutated first, the failing call on "ab" is made, and the command stops
with RESULT_RUN_ERR. -/
theorem C7_set_wildcard_order_w :
    SortedByName [(⟨0, toL "aa"⟩ : ContextInfo), ⟨1, toL "ab"⟩] ∧
    DoCmdSet envSetFail false [toL "set", toL "a*", toL "err"]
      = (.RESULT_RUN_ERR,
         [.info (.settingContextLevel (toL "aa")), .info (.settingContextLevel (toL "ab")),
          .err (.errorSettingLevel .kPmLogErr_Unknown)],
         [.setLevel 0 3, .setLevel 1 3]) := by
  have h := C7_set_wildcard_order envSetFail false (toL "set") (toL "a*") (toL "err") 3
    [⟨0, toL "aa"⟩, ⟨1, toL "ab"⟩] qsortStable_valid (by decide) (by rfl) (by rfl) (by decide)
  refine ⟨h.1, ?_⟩
  have h2 := h.2.2 [⟨0, toL "aa"⟩] ⟨1, toL "ab"⟩ [] .kPmLogErr_Unknown
    (by rfl) (by decide) (by rfl) (by decide)
  simpa using h2

/-- Embedding of DoCmdDef's argument loop (PmLogCtl.c:1109–1147).  The C
sentinel kLevelNotSpecified (-999) is modeled by an Option.  Note that
when the context already exists, the loop prints the "already defined"
message but exits with RESULT_OK (PmLogCtl.c:1121–1125). -/
def defParse (env : Env) (silence : Bool) :
    List CStr → Option CStr → Option Int →
    Except (Result × List Output) (CStr × Option Int)
  | [], cn, lvl =>
    match cn with
    | none => .error (.RESULT_PARAM_ERR, ErrPrint silence .contextNotSpecified)
    | some n => .ok (n, lvl)
  | arg :: rest, none, lvl =>
    let n := PrvResolveContextNameAlias arg
    match PmLogFindContext env.reg n with
    | .ok _ => .error (.RESULT_OK, ErrPrint silence (.alreadyDefined n))
    | .error _ => defParse env silence rest (some n) lvl
  | arg :: rest, some n, none =>
    match env.levelOf arg with
    | none => .error (.RESULT_PARAM_ERR, ErrPrint silence (.invalidLevel arg))
    | some v => defParse env silence rest (some n) (some v)
  | arg :: _, some _, some _ =>
    .error (.RESULT_PARAM_ERR, ErrPrint silence (.invalidParameter arg))

/-- Embedding of DoCmdDef (PmLogCtl.c:1092): define a context via the
external get-or-create call, optionally setting its level. -/
def DoCmdDef (env : Env) (silence : Bool) (args : List CStr) :
    Result × List Output × List Effect :=
  match defParse env silence (args.drop 1) none none with
  | .error (r, out) => (r, out, [])
  | .ok (n, lvlOpt) =>
    match env.getCtxRes n with
    | .error e => (.RESULT_RUN_ERR, ErrPrint silence (.errorDefiningContext e), [])
    | .ok h =>
      match lvlOpt with
      | none => (.RESULT_OK, [], [Effect.getContext n])
      | some v =>
        match env.setRes h v with
        | .kPmLogErr_None => (.RESULT_OK, [], [Effect.getContext n, Effect.setLevel h v])
        | er => (.RESULT_RUN_ERR, ErrPrint silence (.errorSettingLevel er),
            [Effect.getContext n, Effect.setLevel h v])

/-- Environment demonstrating C8: a registry already containing "foo". -/
def envDefW : Env := {
  sorter := qsortStable, maxNumContexts := 8,
  reg := [⟨7, toL "foo"⟩],
  levelOf := fun _ => none,
  levelToStr := fun _ => none,
  enabledLevelOf := fun _ => 0,
  setRes := fun _ _ => .kPmLogErr_None,
  getCtxRes := fun _ => .ok 9,
  logRes := .kPmLogErr_None, kmsgOutcome := .ok }

/-- C8: running `def foo` with "foo" already registered prints the
"Context 'foo' is already defined" error and makes no definition call,
but returns RESULT_OK — the success result, which main maps to
EXIT_SUCCESS — even though the function's own contract (PmLogCtl.c:1090,
"If the context already exists it is an error") and the spec require a
failure result. -/
theorem C8_def_existing_returns_ok :
    DoCmdDef envDefW false [toL "def", toL "foo"]
      = (.RESULT_OK, [.err (.alreadyDefined (toL "foo"))], []) := by rfl

/-- Left brace (written by code point to keep braces out of literals). -/
def lbraceC : Char := Char.ofNat 123

/-- Right brace. -/
def rbraceC : Char := Char.ofNat 125

/-- Double quote. -/
def quoteC : Char := Char.ofNat 34

/-- The size of DoCmdLogKV's kvPair buffer (PmLogCtl.c:691). -/
def kvBufSize : Nat := 1024

/-- memset(kvPair, 0, sizeof(kvPair)): the buffer is modeled as a list of
exactly kvBufSize bytes. -/
def bufInit : List Char := List.replicate kvBufSize nulChar

/-- Overwrite the bytes of `b` starting at `pos` with `s`. -/
def writeAt (b : List Char) (pos : Nat) (s : List Char) : List Char :=
  b.take pos ++ s ++ b.drop (pos + s.length)

/-- strlen view of the buffer: the bytes before the first NUL. -/
def cstrOf (b : List Char) : CStr := b.takeWhile (fun c => c != nulChar)

/-- snprintf(b + pos, size, ...) producing the string `s`: writes at most
size - 1 bytes of `s` plus a terminating NUL; with size 0 nothing is
written.  (The C computes `sizeof(kvPair) - index - 1` in size_t; an
index at or past the buffer end would be undefined behavior in C and is
modeled by the Nat subtraction truncating the size to 0.) -/
def snprintfAt (b : List Char) (pos : Nat) (size : Nat) (s : CStr) : List Char :=
  if size = 0 then b else writeAt b pos (s.take (size - 1) ++ [nulChar])

/-- strncat(b, s, n): append at most n bytes of `s`, plus a NUL, at the
current end of the string held in `b`. -/
def strncatBuf (b : List Char) (s : CStr) (n : Nat) : List Char :=
  writeAt b (cstrOf b).length (s.take n ++ [nulChar])

/-- sscanf(arg, "%m[^=]=%m[^\t\n]", &key, &value) (PmLogCtl.c:777):
returns both conversions (2) exactly when a nonempty run of non-'='
bytes is followed by a literal '=' and then a nonempty run of bytes up
to — not including — the first tab or newline; input after the value
conversion is ignored. -/
def scanKV (arg : CStr) : Option (CStr × CStr) :=
  let key := arg.takeWhile (fun c => c != '=')
  if key = [] then none
  else
    match arg.drop key.length with
    | '=' :: rest =>
      let value := rest.takeWhile (fun c => c != '\t' && c != '\n')
      if value = [] then none else some (key, value)
    | _ => none

/-- The key/value consumption loop of DoCmdLogKV (PmLogCtl.c:753–823),
recursing on the arguments still to be consumed (`argv[paramIndex ..]`,
so the list length is argc - paramIndex).  The last argument is left
untouched for the free-text message ("{}" is stored first if there were
no pairs at all, i.e. paramIndex is still 4); each earlier argument is
parsed with sscanf and appended at the tracked ideal offset `index`,
followed by ',' — or '}' for the pair just before the message.  A parse
failure prints the per-token error and aborts with RESULT_PARAM_ERR only
when no earlier pair succeeded: `result` is sticky and never reset. -/
def kvLoop (silence : Bool) :
    List CStr → Nat → List Char → Nat → Bool →
    List Output × Except Result (List Char)
  | [], _, buf, _, _ => ([], .ok buf)
  | [_], paramIndex, buf, _, _ =>
    ([], .ok (if paramIndex = 4 then snprintfAt buf 0 kvBufSize [lbraceC, rbraceC] else buf))
  | arg :: next :: rest, paramIndex, buf, index, result =>
    let buf1 := if index = 0 then strncatBuf buf [lbraceC] 1 else buf
    let index1 := if index = 0 then index + 1 else index
    match scanKV arg with
    | none =>
      let out := ErrPrint silence (.keyValuePairWrong arg)
      if result then
        let r := kvLoop silence (next :: rest) (paramIndex + 1) buf1 index1 result
        (out ++ r.1, r.2)
      else (out, .error .RESULT_PARAM_ERR)
    | some (key, value) =>
      let entry := quoteC :: key ++ quoteC :: ':' :: value
      let buf2 := snprintfAt buf1 index1 (kvBufSize - index1 - 1) entry
      let kvLength := key.length + 2 + 1 + value.length
      match rest with
      | [] =>
        let buf3 := strncatBuf buf2 [rbraceC] 1
        kvLoop silence (next :: rest) (paramIndex + 1) buf3 index1 true
      | _ :: _ =>
        let buf3 := strncatBuf buf2 [','] 1
        kvLoop silence (next :: rest) (paramIndex + 1) buf3 (index1 + (kvLength + 1)) true

/-- The PmLogString call of DoCmdLogKV (PmLogCtl.c:857) with its error
handling. -/
def emitLogString (env : Env) (silence : Bool) (context : Nat) (lvl : Int)
    (msgID kv msg : Option CStr) : Result × List Output × List Effect :=
  match env.logRes with
  | .kPmLogErr_None => (.RESULT_OK, [], [Effect.logString context lvl msgID kv msg])
  | e => (.RESULT_RUN_ERR, ErrPrint silence (.errorLogging e),
      [Effect.logString context lvl msgID kv msg])

/-- Embedding of DoCmdLogKV (PmLogCtl.c:681).  The outer while loop is
linear — context (argv[1]), level (argv[2]), message ID (argv[3]), the
kv loop over argv[4 .. argc-2], then the message argv[argc-1] — and is
transcribed phase by phase; for the debug level the message-ID and kv
phases are skipped and every kv-related argument is rejected.  argv
cells are non-null, so the C's `if (arg)` guard always holds. -/
def DoCmdLogKV (env : Env) (silence : Bool) (args : List CStr) :
    Result × List Output × List Effect :=
  let argc := args.length
  if argc < 4 then (.RESULT_PARAM_ERR, ErrPrint silence .minimumParams, [])
  else
    let arg1 := args.getD 1 []
    let contextName := PrvResolveContextNameAlias arg1
    match PmLogFindContext env.reg contextName with
    | .error _ => (.RESULT_PARAM_ERR, ErrPrint silence (.invalidContext arg1), [])
    | .ok context =>
      let arg2 := args.getD 2 []
      match env.levelOf arg2 with
      | none => (.RESULT_PARAM_ERR, ErrPrint silence (.invalidLevel arg2), [])
      | some lvl =>
        if lvl = -1 then (.RESULT_PARAM_ERR, ErrPrint silence (.invalidLevel arg2), [])
        else if lvl = kPmLogLevel_Debug then
          if 5 ≤ argc then
            (.RESULT_PARAM_ERR, ErrPrint silence (.invalidParameter (args.getD 4 [])), [])
          else emitLogString env silence context lvl none none (some (args.getD 3 []))
        else
          let msgID := args.getD 3 []
          if argc = 4 then
            emitLogString env silence context lvl (some msgID) (some (cstrOf bufInit)) none
          else
            match kvLoop silence (args.drop 4) 4 bufInit 0 false with
            | (outs, .error res) => (res, outs, [])
            | (outs, .ok buf) =>
              let buf1 := writeAt buf (kvBufSize - 1) [nulChar]
              let msg := args.getD (argc - 1) []
              let r := emitLogString env silence context lvl (some msgID)
                (some (cstrOf buf1)) (some msg)
              (r.1, outs ++ r.2.1, r.2.2)

/-- Everything before the first '=' of a token (the whole token when
there is no '='). -/
def tokKey (tok : CStr) : CStr := tok.takeWhile (fun c => c != '=')

/-- Everything after the first '=' of a token (empty when there is no
'='). -/
def tokVal (tok : CStr) : CStr := (tok.drop (tokKey tok).length).drop 1

/-- A token in the shape the sscanf format actually accepts: nonempty key
before the first '=', the '=' present, and a nonempty NUL-free value
after it containing no tab or newline (so the value really is everything
after the first '='). -/
def WFTok (tok : CStr) : Prop :=
  tokKey tok ≠ [] ∧ (tokKey tok).length < tok.length ∧ tokVal tok ≠ [] ∧
  (∀ c ∈ tokVal tok, c ≠ '\t' ∧ c ≠ '\n') ∧ nulChar ∉ tok

instance (tok : CStr) : Decidable (WFTok tok) := by
  unfold WFTok
  infer_instance

/-- The payload entry for one token as claim C2 words it: the token is
split at its FIRST '='; the quoted key is everything before, the
verbatim value everything after. -/
def kvEntry (tok : CStr) : CStr :=
  quoteC :: tokKey tok ++ quoteC :: ':' :: tokVal tok

/-- The tail of the reference payload after the opening brace: entries in
token order, comma-separated, then the closing brace. -/
def kvTail : List CStr → CStr
  | [] => [rbraceC]
  | [t] => kvEntry t ++ [rbraceC]
  | t :: u :: ts => kvEntry t ++ ',' :: kvTail (u :: ts)

/-- The reference payload of claim C2: `{` ++ comma-separated
`"key":value` entries in token order ++ `}`; the empty token list gives
the empty-object literal. -/
def EncodeKVSpec (tokens : List CStr) : CStr := lbraceC :: kvTail tokens

theorem drop_takeWhile_length (p : Char → Bool) :
    ∀ l : List Char, l.drop (l.takeWhile p).length = l.dropWhile p := by
  intro l
  induction l with
  | nil => rfl
  | cons a t ih =>
    rw [List.takeWhile_cons, List.dropWhile_cons]
    split
    · simpa using ih
    · simp

theorem dropWhile_head_not (p : Char → Bool) :
    ∀ {l r : List Char} {c : Char}, l.dropWhile p = c :: r → p c = false := by
  intro l
  induction l with
  | nil => intro r c h; simp [List.dropWhile] at h
  | cons a t ih =>
    intro r c h
    rw [List.dropWhile_cons] at h
    split at h
    · exact ih h
    · next hpa =>
      cases h
      simpa using hpa

theorem takeWhile_all (p : Char → Bool) :
    ∀ {l : List Char}, (∀ c ∈ l, p c = true) → l.takeWhile p = l := by
  intro l
  induction l with
  | nil => intro _; rfl
  | cons a t ih =>
    intro h
    rw [List.takeWhile_cons, if_pos (h a (by simp))]
    rw [ih fun c hc => h c (by simp [hc])]

theorem scanKV_of_wf {tok : CStr} (h : WFTok tok) :
    scanKV tok = some (tokKey tok, tokVal tok) := by
  obtain ⟨hk, hlt, hv, hval, _⟩ := h
  have hk' : tok.takeWhile (fun c => c != '=') ≠ [] := hk
  have hdw : tok.drop (tok.takeWhile (fun c => c != '=')).length
      = tok.dropWhile (fun c => c != '=') := drop_takeWhile_length _ tok
  cases hD : tok.dropWhile (fun c => c != '=') with
  | nil =>
    exfalso
    have hlen := congrArg List.length (hdw.trans hD)
    simp only [List.length_drop, List.length_nil] at hlen
    unfold tokKey at hlt
    omega
  | cons c r =>
    have hc : c = '=' := by
      have := dropWhile_head_not (fun c => c != '=') hD
      simpa using this
    subst hc
    have hr : r = tokVal tok := by
      unfold tokVal tokKey
      rw [hdw, hD]
      rfl
    have hvr : r.takeWhile (fun c => c != '\t' && c != '\n') = r := by
      apply takeWhile_all
      intro ch hch
      have := hval ch (hr ▸ hch)
      simp [this.1, this.2]
    simp only [scanKV]
    rw [if_neg hk', hdw, hD]
    simp only [hvr]
    rw [if_neg (hr ▸ hv), hr]
    rfl

theorem nul_append_replicate (m : Nat) :
    (nulChar :: List.replicate m nulChar : List Char) = List.replicate (m + 1) nulChar := rfl

theorem pad_snoc (X : List Char) (m : Nat) :
    (X ++ [nulChar]) ++ List.replicate m nulChar = X ++ List.replicate (m + 1) nulChar := by
  rw [List.append_assoc, List.singleton_append, nul_append_replicate]

theorem writeAt_padded (P s : List Char) (k : Nat) :
    writeAt (P ++ List.replicate k nulChar) P.length s
      = P ++ s ++ List.replicate (k - s.length) nulChar := by
  unfold writeAt
  rw [List.take_left]
  rw [List.drop_append]
  rw [List.drop_replicate]

theorem snprintfAt_padded (P s : List Char) (k size : Nat) (h0 : size ≠ 0)
    (hs : s.length ≤ size - 1) (hk : s.length + 1 ≤ k) :
    snprintfAt (P ++ List.replicate k nulChar) P.length size s
      = (P ++ s) ++ List.replicate (k - s.length) nulChar := by
  unfold snprintfAt
  rw [if_neg h0]
  rw [List.take_of_length_le hs]
  rw [writeAt_padded]
  rw [show (s ++ [nulChar]).length = s.length + 1 by simp]
  rw [← List.append_assoc P s [nulChar]]
  rw [pad_snoc (P ++ s) (k - (s.length + 1))]
  congr 2
  omega

theorem cstrOf_padded (P : List Char) (k : Nat) (h : nulChar ∉ P) :
    cstrOf (P ++ List.replicate k nulChar) = P := by
  induction P with
  | nil =>
    cases k with
    | zero => rfl
    | succ m => simp [cstrOf, List.replicate_succ, List.takeWhile_cons]
  | cons c P ih =>
    have hc : (c != nulChar) = true := by
      simp only [bne_iff_ne, ne_eq]
      intro hcc
      exact h (by simp [hcc])
    simp only [List.cons_append, cstrOf, List.takeWhile_cons, hc, if_true]
    have ihh := ih fun hm => h (by simp [hm])
    unfold cstrOf at ihh
    rw [ihh]

theorem strncatBuf_padded (Q : List Char) (c : Char) (k : Nat)
    (hq : nulChar ∉ Q) (hk : 2 ≤ k) :
    strncatBuf (Q ++ List.replicate k nulChar) [c] 1
      = (Q ++ [c]) ++ List.replicate (k - 1) nulChar := by
  unfold strncatBuf
  rw [cstrOf_padded Q k hq]
  rw [show ([c] : List Char).take 1 ++ [nulChar] = [c] ++ [nulChar] from rfl]
  rw [writeAt_padded Q ([c] ++ [nulChar]) k]
  rw [← List.append_assoc Q [c] [nulChar]]
  rw [pad_snoc (Q ++ [c])]
  congr 2
  simp
  omega

theorem writeAt_last_nul (Q : List Char) (k : Nat)
    (hlen : Q.length + k = kvBufSize) (hk : 1 ≤ k) :
    writeAt (Q ++ List.replicate k nulChar) (kvBufSize - 1) [nulChar]
      = Q ++ List.replicate k nulChar := by
  unfold writeAt
  have h1 : kvBufSize - 1 = Q.length + (k - 1) := by
    simp only [kvBufSize] at *
    omega
  rw [h1, List.take_append, List.take_replicate]
  rw [show (k - 1) ⊓ k = k - 1 from min_eq_left (by omega)]
  rw [List.drop_eq_nil_of_le (by simp [List.length_singleton]; omega)]
  rw [List.append_nil, List.append_assoc]
  rw [← List.replicate_succ' (k - 1) nulChar]
  congr 2
  omega

theorem kvEntry_length (t : CStr) :
    (kvEntry t).length = (tokKey t).length + (tokVal t).length + 3 := by
  simp only [kvEntry, List.length_cons, List.length_append]
  omega

theorem mem_kvEntry {c : Char} {t : CStr} (h : c ∈ kvEntry t) :
    c = quoteC ∨ c = ':' ∨ c ∈ t := by
  unfold kvEntry at h
  rcases List.mem_cons.mp h with h1 | h2
  · exact Or.inl h1
  · rcases List.mem_append.mp h2 with h3 | h4
    · exact Or.inr (Or.inr ((List.takeWhile_sublist _).subset h3))
    · rcases List.mem_cons.mp h4 with h5 | h6
      · exact Or.inl h5
      · rcases List.mem_cons.mp h6 with h7 | h8
        · exact Or.inr (Or.inl h7)
        · exact Or.inr (Or.inr (List.mem_of_mem_drop (List.mem_of_mem_drop h8)))

theorem nul_notin_kvEntry {t : CStr} (h : nulChar ∉ t) : nulChar ∉ kvEntry t := by
  intro hmem
  rcases mem_kvEntry hmem with h1 | h2 | h3
  · exact absurd h1 (by decide)
  · exact absurd h2 (by decide)
  · exact h h3

theorem nul_notin_kvTail : ∀ {toks : List CStr},
    (∀ t ∈ toks, nulChar ∉ t) → nulChar ∉ kvTail toks := by
  intro toks
  induction toks with
  | nil =>
    intro _ hmem
    simp only [kvTail] at hmem
    exact absurd (List.mem_singleton.mp hmem) (by decide)
  | cons t ts ih =>
    intro h hmem
    cases ts with
    | nil =>
      simp only [kvTail] at hmem
      rcases List.mem_append.mp hmem with h1 | h2
      · exact nul_notin_kvEntry (h t (by simp)) h1
      · exact absurd (List.mem_singleton.mp h2) (by decide)
    | cons u ts' =>
      simp only [kvTail] at hmem
      rcases List.mem_append.mp hmem with h1 | h2
      · exact nul_notin_kvEntry (h t (by simp)) h1
      · rcases List.mem_cons.mp h2 with h3 | h4
        · exact absurd h3 (by decide)
        · exact ih (fun x hx => h x (by simp [hx])) h4

theorem kvLoop_last_irrelevant (silence : Bool) :
    ∀ (rem : List CStr) (a b : CStr) (pi bufIdx : Nat) (buf : List Char) (r : Bool),
      kvLoop silence (rem ++ [a]) pi buf bufIdx r
        = kvLoop silence (rem ++ [b]) pi buf bufIdx r := by
  intro rem
  induction rem with
  | nil => intro a b pi bufIdx buf r; rfl
  | cons x rem ih =>
    intro a b pi bufIdx buf r
    cases rem with
    | nil =>
      simp only [List.cons_append, List.nil_append, kvLoop]
    | cons y rem' =>
      simp only [List.cons_append, kvLoop]
      cases scanKV x with
      | none =>
        have ih' := ih a b
        simp only [List.append_eq, List.cons_append] at ih' ⊢
        simp only [ih']
      | some kv =>
        cases kv with
        | mk key value =>
          cases rem' with
          | nil =>
            have ih' := ih a b
            simp only [List.append_eq, List.nil_append, List.cons_append] at ih' ⊢
            simp only [ih']
          | cons z rem'' =>
            have ih' := ih a b
            simp only [List.append_eq, List.cons_append] at ih' ⊢
            simp only [ih']

theorem strncatBuf_init :
    strncatBuf (List.replicate kvBufSize nulChar) [lbraceC] 1
      = [lbraceC] ++ List.replicate (kvBufSize - 1) nulChar := by
  have h := strncatBuf_padded [] lbraceC kvBufSize (by simp) (by simp [kvBufSize])
  simpa using h

theorem kvTail_cons_cons (t u : CStr) (ts : List CStr) :
    kvTail (t :: u :: ts) = kvEntry t ++ ',' :: kvTail (u :: ts) := rfl

theorem kvTail_single (t : CStr) : kvTail [t] = kvEntry t ++ [rbraceC] := rfl

/-- Loop invariant of the kv loop: with all of `t :: ts` well-formed, the
buffer holding the NUL-free string `P` (its tracked ideal offset being
`P`'s length; the empty `P` is the initial state, where the opening brace
is still to be written), a fitting payload, and the message argument
last, the loop extends the buffer by exactly the remaining payload and
consumes everything before the message argument. -/
theorem kvLoop_ok (silence : Bool) :
    ∀ (ts : List CStr) (t msgTok : CStr) (paramIndex : Nat) (P : List Char) (r : Bool),
      WFTok t → (∀ u ∈ ts, WFTok u) →
      4 ≤ paramIndex →
      nulChar ∉ P →
      (if P = [] then 1 else P.length) + (kvTail (t :: ts)).length ≤ kvBufSize - 1 →
      kvLoop silence (t :: (ts ++ [msgTok])) paramIndex
          (P ++ List.replicate (kvBufSize - P.length) nulChar) P.length r
        = ([], .ok
            (((if P = [] then [lbraceC] else P) ++ kvTail (t :: ts))
              ++ List.replicate
                  (kvBufSize - ((if P = [] then [lbraceC] else P) ++ kvTail (t :: ts)).length)
                  nulChar)) := by
  intro ts
  induction ts with
  | nil =>
    intro t msgTok paramIndex P r hwt hwts hpi hPnul hfit
    set P1 : List Char := (if P = [] then [lbraceC] else P) with hP1
    have hP1nul : nulChar ∉ P1 := by
      rw [hP1]
      split
      · decide
      · exact hPnul
    have hP1len : (if P = [] then 1 else P.length) = P1.length := by
      rw [hP1]
      split <;> simp
    rw [hP1len] at hfit
    have hkb : kvBufSize = 1024 := rfl
    have hkt : (kvTail [t]).length = (kvEntry t).length + 1 := by
      rw [kvTail_single]
      simp
    have hbuf1 : (if P.length = 0
          then strncatBuf (P ++ List.replicate (kvBufSize - P.length) nulChar) [lbraceC] 1
          else P ++ List.replicate (kvBufSize - P.length) nulChar)
        = P1 ++ List.replicate (kvBufSize - P1.length) nulChar := by
      rw [hP1]
      by_cases hP : P = []
      · rw [if_pos hP, hP]
        rw [if_pos (by simp)]
        simpa using strncatBuf_init
      · rw [if_neg hP, if_neg (by simp [List.length_eq_zero, hP])]
    have hidx1 : (if P.length = 0 then P.length + 1 else P.length) = P1.length := by
      rw [hP1]
      by_cases hP : P = []
      · rw [if_pos hP, hP]
        simp
      · rw [if_neg hP, if_neg (by simp [List.length_eq_zero, hP])]
    simp only [List.nil_append, kvLoop, scanKV_of_wf hwt]
    rw [hbuf1, hidx1]
    rw [show (quoteC :: tokKey t ++ quoteC :: ':' :: tokVal t) = kvEntry t from rfl]
    rw [snprintfAt_padded P1 (kvEntry t) (kvBufSize - P1.length) (kvBufSize - P1.length - 1)
      (by omega) (by omega) (by omega)]
    rw [show kvBufSize - P1.length - (kvEntry t).length
        = kvBufSize - (P1 ++ kvEntry t).length by simp; omega]
    rw [strncatBuf_padded (P1 ++ kvEntry t) rbraceC (kvBufSize - (P1 ++ kvEntry t).length)
      (by
        intro hmem
        rcases List.mem_append.mp hmem with h1 | h2
        · exact hP1nul h1
        · exact nul_notin_kvEntry hwt.2.2.2.2 h2)
      (by simp; omega)]
    rw [if_neg (by omega)]
    refine congrArg (fun z => (([] : List Output), Except.ok z)) ?_
    rw [kvTail_single]
    rw [← List.append_assoc P1 (kvEntry t) [rbraceC]]
    congr 2
    simp only [List.length_append, List.length_singleton]
    omega
  | cons u ts' ih =>
    intro t msgTok paramIndex P r hwt hwts hpi hPnul hfit
    set P1 : List Char := (if P = [] then [lbraceC] else P) with hP1
    have hP1nul : nulChar ∉ P1 := by
      rw [hP1]
      split
      · decide
      · exact hPnul
    have hP1len : (if P = [] then 1 else P.length) = P1.length := by
      rw [hP1]
      split <;> simp
    rw [hP1len] at hfit
    have hkb : kvBufSize = 1024 := rfl
    have hkt : (kvTail (t :: u :: ts')).length
        = (kvEntry t).length + 1 + (kvTail (u :: ts')).length := by
      rw [kvTail_cons_cons]
      simp only [List.length_append, List.length_cons]
      omega
    have hktail1 : 1 ≤ (kvTail (u :: ts')).length := by
      cases ts' with
      | nil =>
        rw [kvTail_single]
        simp only [List.length_append, List.length_singleton]
        omega
      | cons v ts'' =>
        rw [kvTail_cons_cons]
        simp only [List.length_append, List.length_cons]
        omega
    have hbuf1 : (if P.length = 0
          then strncatBuf (P ++ List.replicate (kvBufSize - P.length) nulChar) [lbraceC] 1
          else P ++ List.replicate (kvBufSize - P.length) nulChar)
        = P1 ++ List.replicate (kvBufSize - P1.length) nulChar := by
      rw [hP1]
      by_cases hP : P = []
      · rw [if_pos hP, hP]
        rw [if_pos (by simp)]
        simpa using strncatBuf_init
      · rw [if_neg hP, if_neg (by simp [List.length_eq_zero, hP])]
    have hidx1 : (if P.length = 0 then P.length + 1 else P.length) = P1.length := by
      rw [hP1]
      by_cases hP : P = []
      · rw [if_pos hP, hP]
        simp
      · rw [if_neg hP, if_neg (by simp [List.length_eq_zero, hP])]
    simp only [List.cons_append, List.append_eq, kvLoop, scanKV_of_wf hwt]
    rcases hrest : ts' ++ [msgTok] with _ | ⟨v, rest'⟩
    · exact absurd hrest (by simp)
    · simp only []
      rw [hbuf1, hidx1]
      rw [show (quoteC :: (tokKey t ++ quoteC :: ':' :: tokVal t)) = kvEntry t from rfl]
      rw [snprintfAt_padded P1 (kvEntry t) (kvBufSize - P1.length) (kvBufSize - P1.length - 1)
        (by omega) (by omega) (by omega)]
      rw [show kvBufSize - P1.length - (kvEntry t).length
          = kvBufSize - (P1 ++ kvEntry t).length by
        simp only [List.length_append]
        omega]
      rw [strncatBuf_padded (P1 ++ kvEntry t) ',' (kvBufSize - (P1 ++ kvEntry t).length)
        (by
          intro hmem
          rcases List.mem_append.mp hmem with h1 | h2
          · exact hP1nul h1
          · exact nul_notin_kvEntry hwt.2.2.2.2 h2)
        (by simp only [List.length_append]; omega)]
      rw [show kvBufSize - (P1 ++ kvEntry t).length - 1
          = kvBufSize - ((P1 ++ kvEntry t) ++ [',']).length by
        simp only [List.length_append, List.length_singleton]
        omega]
      rw [show P1.length + ((tokKey t).length + 2 + 1 + (tokVal t).length + 1)
          = ((P1 ++ kvEntry t) ++ [',']).length by
        simp only [List.length_append, List.length_singleton, kvEntry_length]
        omega]
      rw [← hrest]
      rw [ih u msgTok (paramIndex + 1) ((P1 ++ kvEntry t) ++ [',']) true
        (hwts u (by simp)) (fun x hx => hwts x (by simp [hx])) (by omega)
        (by
          intro hmem
          rcases List.mem_append.mp hmem with h1 | h2
          · rcases List.mem_append.mp h1 with h3 | h4
            · exact hP1nul h3
            · exact nul_notin_kvEntry hwt.2.2.2.2 h4
          · exact absurd (List.mem_singleton.mp h2) (by decide))
        (by
          rw [if_neg (by simp)]
          simp only [List.length_append, List.length_singleton]
          omega)]
      rw [if_neg (show ¬((P1 ++ kvEntry t) ++ [','] = []) by simp)]
      refine congrArg (fun z => (([] : List Output), Except.ok z)) ?_
      rw [kvTail_cons_cons]
      congr 1
      · simp [List.append_assoc]
      · congr 1
        simp only [List.length_append, List.length_singleton, List.length_nil,
          List.length_cons, kvTail_cons_cons, kvEntry_length]
        omega
theorem getD_last_append (pre : List CStr) (x : CStr) :
    (pre ++ [x]).getD ((pre ++ [x]).length - 1) [] = x := by
  rw [List.length_append, List.length_singleton]
  rw [List.getD_append_right pre [x] [] (pre.length + 1 - 1) (by omega)]
  simp

/-- Plumbing of DoCmdLogKV's non-debug path with at least one residual
argument: context, level and message ID are taken from argv[1..3], the
kv loop runs over the rest, and argv[argc-1] becomes the message. -/
theorem DoCmdLogKV_run (env : Env) (silence : Bool)
    (w ctxTok lvlTok midTok msgTok : CStr) (toks : List CStr)
    (context : Nat) (lvl : Int)
    (hctx : PmLogFindContext env.reg (PrvResolveContextNameAlias ctxTok) = .ok context)
    (hlvl : env.levelOf lvlTok = some lvl)
    (hm1 : lvl ≠ -1) (hdbg : lvl ≠ kPmLogLevel_Debug) :
    DoCmdLogKV env silence (w :: ctxTok :: lvlTok :: midTok :: (toks ++ [msgTok]))
      = (match kvLoop silence (toks ++ [msgTok]) 4 bufInit 0 false with
         | (outs, .error res) => (res, outs, [])
         | (outs, .ok buf) =>
           let buf1 := writeAt buf (kvBufSize - 1) [nulChar]
           let r := emitLogString env silence context lvl (some midTok)
             (some (cstrOf buf1)) (some msgTok)
           (r.1, outs ++ r.2.1, r.2.2)) := by
  have hlast : (w :: ctxTok :: lvlTok :: midTok :: (toks ++ [msgTok])).getD
      ((w :: ctxTok :: lvlTok :: midTok :: (toks ++ [msgTok])).length - 1) [] = msgTok := by
    simp
  simp only [DoCmdLogKV]
  rw [if_neg (by
    simp only [List.length_cons, List.length_append, List.length_singleton]
    omega)]
  simp only [show (w :: ctxTok :: lvlTok :: midTok :: (toks ++ [msgTok])).getD 1 [] = ctxTok
      from rfl,
    show (w :: ctxTok :: lvlTok :: midTok :: (toks ++ [msgTok])).getD 2 [] = lvlTok from rfl,
    show (w :: ctxTok :: lvlTok :: midTok :: (toks ++ [msgTok])).getD 3 [] = midTok from rfl,
    hctx, hlvl]
  rw [if_neg hm1, if_neg hdbg]
  rw [if_neg (show ¬((w :: ctxTok :: lvlTok :: midTok :: (toks ++ [msgTok])).length = 4) by
    simp only [List.length_cons, List.length_append, List.length_singleton]
    omega)]
  rw [show (w :: ctxTok :: lvlTok :: midTok :: (toks ++ [msgTok])).drop 4 = toks ++ [msgTok]
      from rfl]
  rw [hlast]

theorem nul_notin_encode {toks : List CStr} (h : ∀ t ∈ toks, WFTok t) :
    nulChar ∉ EncodeKVSpec toks := by
  intro hmem
  rcases List.mem_cons.mp hmem with h1 | h2
  · exact absurd h1 (by decide)
  · exact nul_notin_kvTail (fun t ht => (h t ht).2.2.2.2) h2

/-- C2 (amended): for tokens the sscanf format accepts — nonempty key
before the first '=', then a nonempty tab/newline-free value, which is
everything after the first '=' including further '=' signs — and a
payload that fits the 1024-byte buffer, logkv builds exactly the claimed
string: quoted keys, verbatim values, comma-separated in token order,
wrapped in braces, with [] giving the empty-object literal, and hands it
as the structured payload of the emitted record. -/
theorem C2_encode_kv (env : Env) (silence : Bool)
    (w ctxTok lvlTok midTok msgTok : CStr) (toks : List CStr)
    (context : Nat) (lvl : Int)
    (hctx : PmLogFindContext env.reg (PrvResolveContextNameAlias ctxTok) = .ok context)
    (hlvl : env.levelOf lvlTok = some lvl)
    (hm1 : lvl ≠ -1) (hdbg : lvl ≠ kPmLogLevel_Debug)
    (hwf : ∀ t ∈ toks, WFTok t)
    (hfit : (EncodeKVSpec toks).length ≤ kvBufSize - 1) :
    DoCmdLogKV env silence (w :: ctxTok :: lvlTok :: midTok :: (toks ++ [msgTok]))
      = emitLogString env silence context lvl (some midTok)
          (some (EncodeKVSpec toks)) (some msgTok) := by
  rw [DoCmdLogKV_run env silence w ctxTok lvlTok midTok msgTok toks context lvl
    hctx hlvl hm1 hdbg]
  have hnul : nulChar ∉ EncodeKVSpec toks := nul_notin_encode hwf
  have hlen1 : 1 ≤ (EncodeKVSpec toks).length := by
    simp [EncodeKVSpec]
  have hK : kvLoop silence (toks ++ [msgTok]) 4 bufInit 0 false
      = ([], .ok (EncodeKVSpec toks
          ++ List.replicate (kvBufSize - (EncodeKVSpec toks).length) nulChar)) := by
    cases toks with
    | nil =>
      simp only [List.nil_append, kvLoop]
      rw [if_true]
      have h2 := snprintfAt_padded [] [lbraceC, rbraceC] kvBufSize kvBufSize
        (by decide) (by decide) (by decide)
      simp only [List.nil_append, List.length_nil] at h2
      rw [show bufInit = List.replicate kvBufSize nulChar from rfl, h2]
      simp [EncodeKVSpec, kvTail]
    | cons t ts =>
      have hk := kvLoop_ok silence ts t msgTok 4 [] false (hwf t (by simp))
        (fun u hu => hwf u (by simp [hu])) (by omega) (by simp)
        (by
          rw [if_pos rfl]
          have hE : (EncodeKVSpec (t :: ts)).length = 1 + (kvTail (t :: ts)).length := by
            simp only [EncodeKVSpec, List.length_cons]
            omega
          omega)
      simp only [List.length_nil, Nat.sub_zero, List.nil_append, if_pos rfl] at hk
      rw [List.cons_append]
      rw [show bufInit = List.replicate kvBufSize nulChar from rfl]
      rw [hk]
      rfl
  rw [hK]
  have hwl := writeAt_last_nul (EncodeKVSpec toks)
    (kvBufSize - (EncodeKVSpec toks).length)
    (by omega) (by omega)
  simp only [hwl]
  rw [cstrOf_padded _ _ hnul]
  simp

/-- Environment for the logkv theorems' concrete runs: context "ctx" has
handle 0, "err" parses to level 3, emission succeeds. -/
def envKV : Env := {
  sorter := qsortStable, maxNumContexts := 8,
  reg := [⟨0, toL "ctx"⟩],
  levelOf := fun s => if s = toL "err" then some 3 else none,
  levelToStr := fun _ => none,
  enabledLevelOf := fun _ => 0,
  setRes := fun _ _ => .kPmLogErr_None,
  getCtxRes := fun _ => .error .kPmLogErr_Unknown,
  logRes := .kPmLogErr_None, kmsgOutcome := .ok }

/-- Witness for C2 at the spec's own example tokens a=1, b=2. -/
theorem C2_encode_kv_w :
    DoCmdLogKV envKV false
        [toL "logkv", toL "ctx", toL "err", toL "MID", toL "a=1", toL "b=2", toL "msg"]
      = (.RESULT_OK, [],
         [.logString 0 3 (some (toL "MID"))
            (some (EncodeKVSpec [toL "a=1", toL "b=2"])) (some (toL "msg"))]) := by
  have h := C2_encode_kv envKV false (toL "logkv") (toL "ctx") (toL "err") (toL "MID")
    (toL "msg") [toL "a=1", toL "b=2"] 0 3 (by rfl) (by rfl) (by decide) (by decide)
    (by decide) (by decide)
  exact h.trans (by rfl)

/-- C2 counterexample: the token "a=" is a key=value token by the claim's
own definition (split at the first '=': key "a", value empty), so the
claim demands payload EncodeKVSpec ["a="]; the code's sscanf format
rejects the empty value, reports the token as wrong, and aborts with
RESULT_PARAM_ERR, emitting nothing. -/
theorem C2_cex :
    DoCmdLogKV envKV false
        [toL "logkv", toL "ctx", toL "err", toL "MID", toL "a=", toL "msg"]
      = (.RESULT_PARAM_ERR, [.err (.keyValuePairWrong (toL "a="))], []) ∧
    EncodeKVSpec [toL "a="] = [lbraceC, quoteC, 'a', quoteC, ':', rbraceC] := by
  exact ⟨by rfl, by rfl⟩

/-- C3 (amended): a token the sscanf format rejects (for example one with
no '=') aborts the whole emission with RESULT_PARAM_ERR — only the
per-token error is printed and no log record is emitted — exactly when
no earlier token parsed successfully; in particular a malformed FIRST kv
token always aborts.  (A malformed later token does not abort: see the
counterexample.) -/
theorem C3_bad_first_token_aborts (env : Env) (silence : Bool)
    (w ctxTok lvlTok midTok bad : CStr) (rest : List CStr)
    (context : Nat) (lvl : Int)
    (hctx : PmLogFindContext env.reg (PrvResolveContextNameAlias ctxTok) = .ok context)
    (hlvl : env.levelOf lvlTok = some lvl)
    (hm1 : lvl ≠ -1) (hdbg : lvl ≠ kPmLogLevel_Debug)
    (hbad : scanKV bad = none) (hrest : rest ≠ []) :
    DoCmdLogKV env silence (w :: ctxTok :: lvlTok :: midTok :: bad :: rest)
      = (.RESULT_PARAM_ERR, ErrPrint silence (.keyValuePairWrong bad), []) := by
  obtain ⟨r0, rest', hsplit⟩ : ∃ r0 rest', rest = r0 :: rest' := by
    cases rest with
    | nil => exact absurd rfl hrest
    | cons a l => exact ⟨a, l, rfl⟩
  subst hsplit
  obtain ⟨pre, lastTok, hpre⟩ : ∃ pre lastTok, r0 :: rest' = pre ++ [lastTok] := by
    rcases List.eq_nil_or_concat (r0 :: rest') with h | ⟨L, b, h⟩
    · exact absurd h (by simp)
    · exact ⟨L, b, by rw [h, List.concat_eq_append]⟩
  rw [show (bad :: (r0 :: rest') : List CStr) = (bad :: pre) ++ [lastTok] by
    rw [List.cons_append, ← hpre]]
  rw [show (w :: ctxTok :: lvlTok :: midTok :: ((bad :: pre) ++ [lastTok]) : List CStr)
      = w :: ctxTok :: lvlTok :: midTok :: ((bad :: pre) ++ [lastTok]) from rfl]
  rw [DoCmdLogKV_run env silence w ctxTok lvlTok midTok lastTok (bad :: pre) context lvl
    hctx hlvl hm1 hdbg]
  rw [show ((bad :: pre) ++ [lastTok] : List CStr) = bad :: (pre ++ [lastTok]) by
    rw [List.cons_append]]
  obtain ⟨q0, qrest, hq⟩ : ∃ q0 qrest, pre ++ [lastTok] = q0 :: qrest := by
    cases hpp : pre ++ [lastTok] with
    | nil => exact absurd hpp (by simp)
    | cons a l => exact ⟨a, l, rfl⟩
  rw [hq]
  simp only [kvLoop, hbad]
  rfl

/-- C3 counterexample: with the malformed token after a successful pair,
the run does NOT abort: the token is reported and skipped, the log record
IS emitted, and its payload is the malformed partial string
`{"a":1,` (no closing brace), with overall result RESULT_OK. -/
theorem C3_cex :
    DoCmdLogKV envKV false
        [toL "logkv", toL "ctx", toL "err", toL "MID", toL "a=1", toL "xx", toL "m"]
      = (.RESULT_OK, [.err (.keyValuePairWrong (toL "xx"))],
         [.logString 0 3 (some (toL "MID"))
            (some [lbraceC, quoteC, 'a', quoteC, ':', '1', ',']) (some (toL "m"))]) := by
  rfl

/-- Witness for C3 at a malformed first token. -/
theorem C3_bad_first_token_aborts_w :
    DoCmdLogKV envKV false
        [toL "logkv", toL "ctx", toL "err", toL "MID", toL "nokv", toL "m"]
      = (.RESULT_PARAM_ERR, [.err (.keyValuePairWrong (toL "nokv"))], []) := by
  have h := C3_bad_first_token_aborts envKV false (toL "logkv") (toL "ctx") (toL "err")
    (toL "MID") (toL "nokv") [toL "m"] 0 3 (by rfl) (by rfl) (by decide) (by decide)
    (by rfl) (by decide)
  exact h.trans (by rfl)

/-- C10: in logkv the final residual argument is always consumed as the
free-text message and never parsed as a key=value pair: whatever the
final argument is — in particular when it has the form key=value — the
run equals the one where the payload is computed from the earlier tokens
alone (the final argument replaced by a dummy below), and the final
argument appears only as the message of the emitted record; with no
earlier tokens the payload is the empty-object/empty payload. -/
theorem C10_last_arg_is_message (env : Env) (silence : Bool)
    (w ctxTok lvlTok midTok msgTok : CStr) (toks : List CStr)
    (context : Nat) (lvl : Int)
    (hctx : PmLogFindContext env.reg (PrvResolveContextNameAlias ctxTok) = .ok context)
    (hlvl : env.levelOf lvlTok = some lvl)
    (hm1 : lvl ≠ -1) (hdbg : lvl ≠ kPmLogLevel_Debug) :
    DoCmdLogKV env silence (w :: ctxTok :: lvlTok :: midTok :: (toks ++ [msgTok]))
      = (match kvLoop silence (toks ++ [[]]) 4 bufInit 0 false with
         | (outs, .error res) => (res, outs, [])
         | (outs, .ok buf) =>
           let buf1 := writeAt buf (kvBufSize - 1) [nulChar]
           let r := emitLogString env silence context lvl (some midTok)
             (some (cstrOf buf1)) (some msgTok)
           (r.1, outs ++ r.2.1, r.2.2)) := by
  rw [DoCmdLogKV_run env silence w ctxTok lvlTok midTok msgTok toks context lvl
    hctx hlvl hm1 hdbg]
  rw [kvLoop_last_irrelevant silence toks msgTok [] 4 0 bufInit false]

/-- Witness for C10: the final argument "b=2" has key=value form, yet it
becomes the message and the payload is built from "a=1" alone. -/
theorem C10_last_arg_is_message_w :
    DoCmdLogKV envKV false
        [toL "logkv", toL "ctx", toL "err", toL "MID", toL "a=1", toL "b=2"]
      = (.RESULT_OK, [],
         [.logString 0 3 (some (toL "MID"))
            (some [lbraceC, quoteC, 'a', quoteC, ':', '1', rbraceC]) (some (toL "b=2"))]) := by
  have h := C10_last_arg_is_message envKV false (toL "logkv") (toL "ctx") (toL "err")
    (toL "MID") (toL "b=2") [toL "a=1"] 0 3 (by rfl) (by rfl) (by decide) (by decide)
  exact h.trans (by rfl)

/-- Embedding of DoCmdLog's argument loop (PmLogCtl.c:596–639): fill
context, then level, then message; any further argument is an error. -/
def logParse (env : Env) (silence : Bool) :
    List CStr → Option Nat → Option Int → Option CStr →
    Except (List Output) (Option Nat × Option Int × Option CStr)
  | [], ctx, lvl, msg => .ok (ctx, lvl, msg)
  | arg :: rest, none, lvl, msg =>
    match PmLogFindContext env.reg (PrvResolveContextNameAlias arg) with
    | .error _ => .error (ErrPrint silence (.invalidContext arg))
    | .ok h => logParse env silence rest (some h) lvl msg
  | arg :: rest, some c, none, msg =>
    match env.levelOf arg with
    | none => .error (ErrPrint silence (.invalidLevel arg))
    | some v =>
      if v = -1 then .error (ErrPrint silence (.invalidLevel arg))
      else logParse env silence rest (some c) (some v) msg
  | arg :: rest, some c, some v, none =>
    logParse env silence rest (some c) (some v) (some arg)
  | arg :: _, some _, some _, some _ =>
    .error (ErrPrint silence (.invalidParameter arg))

/-- Embedding of DoCmdLog (PmLogCtl.c:570): with exactly one parameter
the global context and Notice level are preselected; then the PmLogPrint_
call with its error handling. -/
def DoCmdLog (env : Env) (silence : Bool) (args : List CStr) :
    Result × List Output × List Effect :=
  let ctx0 : Option Nat :=
    if args.length = 2 then some kPmLogGlobalContext else none
  let lvl0 : Option Int :=
    if args.length = 2 then some kPmLogLevel_Notice else none
  match logParse env silence (args.drop 1) ctx0 lvl0 none with
  | .error out => (.RESULT_PARAM_ERR, out, [])
  | .ok (ctx, lvl, msg) =>
    match ctx with
    | none => (.RESULT_PARAM_ERR, ErrPrint silence .contextNotSpecified, [])
    | some h =>
      match lvl with
      | none => (.RESULT_PARAM_ERR, ErrPrint silence .levelNotSpecified, [])
      | some v =>
        match msg with
        | none => (.RESULT_PARAM_ERR, ErrPrint silence .messageNotSpecified, [])
        | some m =>
          match env.logRes with
          | .kPmLogErr_None => (.RESULT_OK, [], [Effect.logPrint h v m])
          | e => (.RESULT_RUN_ERR, ErrPrint silence (.errorLogging e),
              [Effect.logPrint h v m])

/-- Embedding of WriteKMsg (PmLogCtl.c:877): open /dev/kmsg, write the
prioritized line, with the two failure modes. -/
def WriteKMsg (env : Env) (silence : Bool) (priority : Int) (msg : CStr) :
    Result × List Output × List Effect :=
  match env.kmsgOutcome with
  | .openFail => (.RESULT_RUN_ERR, ErrPrint silence .errorOpeningKmsg, [])
  | .writeFail => (.RESULT_RUN_ERR, ErrPrint silence .errorWritingKmsg,
      [Effect.kmsgWrite priority msg])
  | .ok => (.RESULT_OK, [], [Effect.kmsgWrite priority msg])

/-- Embedding of DoCmdKLog's argument loop (PmLogCtl.c:946–990): a "-p"
option taking a level (no -1 check here), any other dash argument is an
error, the first plain argument is the message, a second is an error. -/
def klogParse (env : Env) (silence : Bool) :
    List CStr → Int → Option CStr → Except (List Output) (Int × Option CStr)
  | [], lvl, msg => .ok (lvl, msg)
  | [arg], lvl, msg =>
    if arg.headD nulChar = '-' then
      if arg = toL "-p" then .error (ErrPrint silence .dashPRequiresValue)
      else .error (ErrPrint silence (.invalidParameter arg))
    else
      match msg with
      | none => .ok (lvl, some arg)
      | some _ => .error (ErrPrint silence (.invalidParameter arg))
  | arg :: v :: rest', lvl, msg =>
    if arg.headD nulChar = '-' then
      if arg = toL "-p" then
        match env.levelOf v with
        | none => .error (ErrPrint silence (.invalidLevel v))
        | some lv => klogParse env silence rest' lv msg
      else .error (ErrPrint silence (.invalidParameter arg))
    else
      match msg with
      | none => klogParse env silence (v :: rest') lvl (some arg)
      | some _ => .error (ErrPrint silence (.invalidParameter arg))

/-- Embedding of DoCmdKLog (PmLogCtl.c:931): parse [-p level] msg, then
write the kernel message. -/
def DoCmdKLog (env : Env) (silence : Bool) (args : List CStr) :
    Result × List Output × List Effect :=
  match klogParse env silence (args.drop 1) kPmLogLevel_Notice none with
  | .error out => (.RESULT_PARAM_ERR, out, [])
  | .ok (lvl, msg) =>
    match msg with
    | none => (.RESULT_PARAM_ERR, ErrPrint silence .messageNotSpecified, [])
    | some m => WriteKMsg env silence lvl m

/-- Embedding of DoCmdFlush (PmLogCtl.c:1018): get the "pmlogctl"
context, then the PmLogInfo flush record. -/
def DoCmdFlush (env : Env) (silence : Bool) : Result × List Output × List Effect :=
  match env.getCtxRes (toL "pmlogctl") with
  | .error e => (.RESULT_RUN_ERR, ErrPrint silence (.errorGettingFlushContext e), [])
  | .ok h =>
    match env.logRes with
    | .kPmLogErr_None => (.RESULT_OK, [],
        [Effect.getContext (toL "pmlogctl"), Effect.logInfoFlush h])
    | e => (.RESULT_RUN_ERR, ErrPrint silence (.errorLogging e),
        [Effect.getContext (toL "pmlogctl"), Effect.logInfoFlush h])

/-- Embedding of DoCmdReConf (PmLogCtl.c:1053): any parameter is an
error; otherwise the reload command is logged on the global context at
Emergency level. -/
def DoCmdReConf (env : Env) (silence : Bool) (args : List CStr) :
    Result × List Output × List Effect :=
  match args.drop 1 with
  | arg :: _ => (.RESULT_PARAM_ERR, ErrPrint silence (.invalidParameter arg), [])
  | [] =>
    match env.logRes with
    | .kPmLogErr_None => (.RESULT_OK, [],
        [Effect.logPrint kPmLogGlobalContext kPmLogLevel_Emergency (toL "!loglib loadconf")])
    | e => (.RESULT_RUN_ERR, ErrPrint silence (.errorLogging e),
        [Effect.logPrint kPmLogGlobalContext kPmLogLevel_Emergency (toL "!loglib loadconf")])

/-- Embedding of ShowContext (PmLogCtl.c:325): one info line with the
context's name and its enabled level's label ("Unknown" when the label
lookup fails). -/
def ShowContext (env : Env) (silence : Bool) (e : ContextInfo) : List Output :=
  InfoPrint silence
    (.showContext e.contextName ((env.levelToStr (env.enabledLevelOf e.context)).getD
      (toL "Unknown")))

/-- Embedding of DoCmdShow (PmLogCtl.c:348): optional match pattern, a
third argument is an error, then the lister, one line per snapshot entry,
and the two zero-match errors for an explicit pattern.  malloc is modeled
as succeeding. -/
def DoCmdShow (env : Env) (silence : Bool) (args : List CStr) :
    Result × List Output × List Effect :=
  let matchContextName : Option CStr :=
    if 2 ≤ args.length then some (PrvResolveContextNameAlias (args.getD 1 [])) else none
  if 3 ≤ args.length then
    (.RESULT_PARAM_ERR, ErrPrint silence (.invalidParameter (args.getD 2 [])), [])
  else
    match PrvGetContextList env.sorter env.maxNumContexts env.reg matchContextName with
    | .error e => (.RESULT_RUN_ERR, ErrPrint silence (.errorGettingContextsInfo e), [])
    | .ok l =>
      let outs := l.foldr (fun e acc => ShowContext env silence e ++ acc) []
      match matchContextName with
      | some pat =>
        if l.length = 0 then
          (.RESULT_RUN_ERR, outs ++
            (if PrvIsWildcardContextName pat then ErrPrint silence (.noContextsMatched pat)
             else ErrPrint silence (.contextNotFound pat)), [])
        else (.RESULT_OK, outs, [])
      | none => (.RESULT_OK, outs, [])

/-- Embedding of ShowUsage (PmLogCtl.c:1185): twenty fixed info lines
(numbered in source order), then one line per level -1..7 with its
label. -/
def ShowUsage (env : Env) (silence : Bool) : List Output :=
  ((List.range 20).foldr (fun i acc => InfoPrint silence (.usageLine i) ++ acc) [])
    ++ ((List.range 9).foldr (fun k acc =>
          InfoPrint silence
            (.usageLevelLine (env.levelToStr ((k : Int) - 1)) ((k : Int) - 1)) ++ acc) [])

/-- The command dispatch of main (PmLogCtl.c:1264–1310).  "view" is
handled by DoCmdView in PmLogView.c, which is not part of these sources,
so its runs are outside the model (`none`). -/
def dispatch (env : Env) (silence : Bool) (cmd : CStr) (args : List CStr) :
    Option (Result × List Output × List Effect) :=
  if cmd = toL "def" then some (DoCmdDef env silence args)
  else if cmd = toL "log" then some (DoCmdLog env silence args)
  else if cmd = toL "logkv" then some (DoCmdLogKV env silence args)
  else if cmd = toL "klog" then some (DoCmdKLog env silence args)
  else if cmd = toL "reconf" then some (DoCmdReConf env silence args)
  else if cmd = toL "set" then some (DoCmdSet env silence args)
  else if cmd = toL "show" then some (DoCmdShow env silence args)
  else if cmd = toL "view" then none
  else if cmd = toL "flush" then some (DoCmdFlush env silence)
  else if cmd = toL "help" ∨ cmd = toL "-help" then
    some (.RESULT_HELP, ShowUsage env silence, [])
  else some (.RESULT_PARAM_ERR, ErrPrint silence (.invalidCommand cmd), [])

/-- Embedding of main (PmLogCtl.c:1223): flag_silence is set exactly when
there is an argv[1] whose first two bytes are "-s" (strncmp with n = 2);
with "-s" the command is argv[2] and the handler's argv starts there;
SuggestHelp's line (itself an ErrPrint) is appended on RESULT_PARAM_ERR. -/
def mainModel (env : Env) (argv : List CStr) :
    Option (Result × List Output × List Effect) :=
  let silence : Bool := decide (2 ≤ argv.length) && ((argv.getD 1 []).take 2 == toL "-s")
  let core : Option (Result × List Output × List Effect) :=
    if argv.length < 2 then
      some (.RESULT_PARAM_ERR, ErrPrint silence .noCommandSpecified, [])
    else if (argv.getD 1 []).take 2 = toL "-s" then
      if 2 < argv.length then dispatch env silence (argv.getD 2 []) (argv.drop 2)
      else some (.RESULT_PARAM_ERR, ErrPrint silence .noCommandSpecified, [])
    else dispatch env silence (argv.getD 1 []) (argv.drop 1)
  match core with
  | none => none
  | some (r, outs, effs) =>
    if r = .RESULT_PARAM_ERR then some (r, outs ++ ErrPrint silence .suggestHelp, effs)
    else some (r, outs, effs)

theorem ErrPrint_true (m : Msg) : ErrPrint true m = [] := rfl

theorem InfoPrint_true (m : Msg) : InfoPrint true m = [] := rfl

theorem setParse_silent (env : Env) :
    ∀ (rest : List CStr) (mc : Option CStr) (mctx : Option Nat) (lvl : Option Int)
      (out : List Output),
      setParse env true rest mc mctx lvl = .error out → out = [] := by
  intro rest
  induction rest with
  | nil =>
    intro mc mctx lvl out h
    cases mc with
    | none => simp [setParse, ErrPrint] at h; exact h
    | some m =>
      cases lvl with
      | none => simp [setParse, ErrPrint] at h; exact h
      | some v => simp [setParse] at h
  | cons a rest ih =>
    intro mc mctx lvl out h
    cases mc with
    | none =>
      simp only [setParse] at h
      by_cases hw : PrvIsWildcardContextName (PrvResolveContextNameAlias a)
      · rw [if_pos hw] at h
        exact ih _ _ _ _ h
      · rw [if_neg hw] at h
        cases hf : PmLogFindContext env.reg (PrvResolveContextNameAlias a) with
        | error e =>
          rw [hf] at h
          simp [ErrPrint] at h
          exact h
        | ok hdl =>
          rw [hf] at h
          exact ih _ _ _ _ h
    | some m =>
      cases lvl with
      | none =>
        simp only [setParse] at h
        cases hl : env.levelOf a with
        | none =>
          rw [hl] at h
          simp [ErrPrint] at h
          exact h
        | some v =>
          rw [hl] at h
          exact ih _ _ _ _ h
      | some v =>
        simp [setParse, ErrPrint] at h
        exact h

theorem setApply_silent (env : Env) (lvl : Int) :
    ∀ l : List ContextInfo, (setApply env true lvl l).2.1 = [] := by
  intro l
  induction l with
  | nil => rfl
  | cons e rest ih =>
    cases hs : env.setRes e.context lvl <;>
      simp [setApply, InfoPrint, ErrPrint, hs, ih]

theorem DoCmdSet_silent (env : Env) (args : List CStr) :
    (DoCmdSet env true args).2.1 = [] := by
  unfold DoCmdSet
  cases hp : setParse env true (args.drop 1) none none none with
  | error out => simpa [hp] using setParse_silent env _ _ _ _ _ hp
  | ok t =>
    obtain ⟨mc, mctx, lvl⟩ := t
    cases mctx with
    | none =>
      cases hg : PrvGetContextList env.sorter env.maxNumContexts env.reg (some mc) with
      | error e => simp [hp, hg, ErrPrint]
      | ok l =>
        by_cases hl : l.length = 0
        · simp [hp, hg, hl, ErrPrint]
        · simp [hp, hg, hl, setApply_silent]
    | some h =>
      cases hs : env.setRes h lvl <;> simp [hp, hs, InfoPrint, ErrPrint]

theorem defParse_silent (env : Env) :
    ∀ (rest : List CStr) (cn : Option CStr) (lvl : Option Int)
      (r : Result) (out : List Output),
      defParse env true rest cn lvl = .error (r, out) → out = [] := by
  intro rest
  induction rest with
  | nil =>
    intro cn lvl r out h
    cases cn with
    | none => simp [defParse, ErrPrint] at h; exact h.2
    | some n => simp [defParse] at h
  | cons a rest ih =>
    intro cn lvl r out h
    cases cn with
    | none =>
      simp only [defParse] at h
      cases hf : PmLogFindContext env.reg (PrvResolveContextNameAlias a) with
      | error e =>
        rw [hf] at h
        exact ih _ _ _ _ h
      | ok hdl =>
        rw [hf] at h
        simp [ErrPrint] at h
        exact h.2
    | some n =>
      cases lvl with
      | none =>
        simp only [defParse] at h
        cases hl : env.levelOf a with
        | none =>
          rw [hl] at h
          simp [ErrPrint] at h
          exact h.2
        | some v =>
          rw [hl] at h
          exact ih _ _ _ _ h
      | some v =>
        simp [defParse, ErrPrint] at h
        exact h.2

theorem DoCmdDef_silent (env : Env) (args : List CStr) :
    (DoCmdDef env true args).2.1 = [] := by
  unfold DoCmdDef
  cases hp : defParse env true (args.drop 1) none none with
  | error p =>
    obtain ⟨r, out⟩ := p
    simpa [hp] using defParse_silent env _ _ _ _ _ hp
  | ok t =>
    obtain ⟨n, lvlOpt⟩ := t
    cases hg : env.getCtxRes n with
    | error e => simp [hp, hg, ErrPrint]
    | ok h =>
      cases lvlOpt with
      | none => simp [hp, hg]
      | some v => cases hs : env.setRes h v <;> simp [hp, hg, hs, ErrPrint]

theorem logParse_silent (env : Env) :
    ∀ (rest : List CStr) (ctx : Option Nat) (lvl : Option Int) (msg : Option CStr)
      (out : List Output),
      logParse env true rest ctx lvl msg = .error out → out = [] := by
  intro rest
  induction rest with
  | nil => intro ctx lvl msg out h; simp [logParse] at h
  | cons a rest ih =>
    intro ctx lvl msg out h
    cases ctx with
    | none =>
      simp only [logParse] at h
      cases hf : PmLogFindContext env.reg (PrvResolveContextNameAlias a) with
      | error e =>
        rw [hf] at h
        simp [ErrPrint] at h
        exact h
      | ok hdl =>
        rw [hf] at h
        exact ih _ _ _ _ h
    | some c =>
      cases lvl with
      | none =>
        simp only [logParse] at h
        cases hl : env.levelOf a with
        | none =>
          rw [hl] at h
          simp [ErrPrint] at h
          exact h
        | some v =>
          rw [hl] at h
          simp only [ErrPrint_true] at h
          by_cases hm1 : v = -1
          · rw [if_pos hm1] at h
            injection h with h
            exact h.symm
          · rw [if_neg hm1] at h
            exact ih _ _ _ _ h
      | some v =>
        cases msg with
        | none =>
          simp only [logParse] at h
          exact ih _ _ _ _ h
        | some m =>
          simp [logParse, ErrPrint] at h
          exact h

theorem DoCmdLog_silent (env : Env) (args : List CStr) :
    (DoCmdLog env true args).2.1 = [] := by
  simp only [DoCmdLog]
  cases hp : logParse env true (args.drop 1)
      (if args.length = 2 then some kPmLogGlobalContext else none)
      (if args.length = 2 then some kPmLogLevel_Notice else none) none with
  | error out => exact logParse_silent env _ _ _ _ _ hp
  | ok t =>
    obtain ⟨ctx, lvl, msg⟩ := t
    cases ctx with
    | none => simp [ErrPrint]
    | some h =>
      cases lvl with
      | none => simp [ErrPrint]
      | some v =>
        cases msg with
        | none => simp [ErrPrint]
        | some m => cases hr : env.logRes <;> simp [hr, ErrPrint]

theorem klogParse_silent (env : Env) :
    ∀ (rest : List CStr) (lvl : Int) (msg : Option CStr) (out : List Output),
      klogParse env true rest lvl msg = .error out → out = [] := by
  have key : ∀ (n : Nat) (rest : List CStr), rest.length ≤ n →
      ∀ (lvl : Int) (msg : Option CStr) (out : List Output),
        klogParse env true rest lvl msg = .error out → out = [] := by
    intro n
    induction n with
    | zero =>
      intro rest hr lvl msg out h
      have hnil : rest = [] := List.eq_nil_of_length_eq_zero (Nat.le_zero.mp hr)
      subst hnil
      simp [klogParse] at h
    | succ n ihn =>
      intro rest hr lvl msg out h
      rcases rest with _ | ⟨a, _ | ⟨v, rest'⟩⟩
      · simp [klogParse] at h
      · simp only [klogParse] at h
        by_cases hd : a.headD nulChar = '-'
        · rw [if_pos hd] at h
          by_cases hp : a = toL "-p"
          · rw [if_pos hp] at h
            simp [ErrPrint] at h
            exact h
          · rw [if_neg hp] at h
            simp [ErrPrint] at h
            exact h
        · rw [if_neg hd] at h
          cases msg with
          | none => simp at h
          | some m =>
            simp [ErrPrint] at h
            exact h
      · simp only [klogParse] at h
        by_cases hd : a.headD nulChar = '-'
        · rw [if_pos hd] at h
          by_cases hp : a = toL "-p"
          · rw [if_pos hp] at h
            cases hl : env.levelOf v with
            | none =>
              rw [hl] at h
              simp [ErrPrint] at h
              exact h
            | some lv =>
              rw [hl] at h
              exact ihn rest' (by
                simp only [List.length_cons] at hr
                omega) _ _ _ h
          · rw [if_neg hp] at h
            simp [ErrPrint] at h
            exact h
        · rw [if_neg hd] at h
          cases msg with
          | none =>
            exact ihn (v :: rest') (by
              simp only [List.length_cons] at hr ⊢
              omega) _ _ _ h
          | some m =>
            simp [ErrPrint] at h
            exact h
  intro rest lvl msg out h
  exact key rest.length rest (Nat.le_refl _) lvl msg out h

theorem DoCmdKLog_silent (env : Env) (args : List CStr) :
    (DoCmdKLog env true args).2.1 = [] := by
  unfold DoCmdKLog
  cases hp : klogParse env true (args.drop 1) kPmLogLevel_Notice none with
  | error out => simpa [hp] using klogParse_silent env _ _ _ _ hp
  | ok t =>
    obtain ⟨lvl, msg⟩ := t
    cases msg with
    | none => simp [hp, ErrPrint]
    | some m => cases hk : env.kmsgOutcome <;> simp [hp, WriteKMsg, hk, ErrPrint]

theorem DoCmdFlush_silent (env : Env) : (DoCmdFlush env true).2.1 = [] := by
  unfold DoCmdFlush
  cases hg : env.getCtxRes (toL "pmlogctl") with
  | error e => simp [hg, ErrPrint]
  | ok h => cases hr : env.logRes <;> simp [hg, hr, ErrPrint]

theorem DoCmdReConf_silent (env : Env) (args : List CStr) :
    (DoCmdReConf env true args).2.1 = [] := by
  unfold DoCmdReConf
  cases hd : args.drop 1 with
  | cons a rest => simp [hd, ErrPrint]
  | nil => cases hr : env.logRes <;> simp [hd, hr, ErrPrint]

theorem DoCmdShow_silent (env : Env) (args : List CStr) :
    (DoCmdShow env true args).2.1 = [] := by
  have hfold : ∀ l : List ContextInfo,
      l.foldr (fun e acc => ShowContext env true e ++ acc) [] = [] := by
    intro l
    induction l with
    | nil => rfl
    | cons e rest ih => simp [ShowContext, InfoPrint, ih]
  simp only [DoCmdShow]
  by_cases h3 : 3 ≤ args.length
  · simp only [if_pos h3, ErrPrint_true]
  · rw [if_neg h3]
    cases hg : PrvGetContextList env.sorter env.maxNumContexts env.reg
        (if 2 ≤ args.length then some (PrvResolveContextNameAlias (args.getD 1 [])) else none) with
    | error e => rfl
    | ok l =>
      simp only [hfold, ErrPrint_true, List.append_nil, List.nil_append, ite_self]
      by_cases h2 : 2 ≤ args.length
      · rw [if_pos h2]
        by_cases hl : l.length = 0
        · simp [hl]
        · simp [hl]
      · rw [if_neg h2]

theorem kvLoop_silent : ∀ (args : List CStr) (pIdx : Nat) (buf : List Char)
    (idx : Nat) (r : Bool), (kvLoop true args pIdx buf idx r).1 = [] := by
  intro args
  induction args with
  | nil => intro pIdx buf idx r; rfl
  | cons a rest ih =>
    intro pIdx buf idx r
    cases rest with
    | nil => rfl
    | cons b rest' =>
      simp only [kvLoop]
      cases hs : scanKV a with
      | none =>
        cases r with
        | true => simp [ErrPrint, ih]
        | false => simp [ErrPrint]
      | some kv =>
        obtain ⟨k, v⟩ := kv
        cases rest' with
        | nil => simp [ih]
        | cons c rest'' => simp [ih]

theorem emitLogString_silent (env : Env) (context : Nat) (lvl : Int)
    (msgID kv msg : Option CStr) :
    (emitLogString env true context lvl msgID kv msg).2.1 = [] := by
  cases hr : env.logRes <;> simp [emitLogString, hr, ErrPrint]

theorem DoCmdLogKV_silent (env : Env) (args : List CStr) :
    (DoCmdLogKV env true args).2.1 = [] := by
  simp only [DoCmdLogKV]
  by_cases h4 : args.length < 4
  · simp only [if_pos h4, ErrPrint_true]
  · rw [if_neg h4]
    cases hf : PmLogFindContext env.reg (PrvResolveContextNameAlias (args.getD 1 [])) with
    | error e => rfl
    | ok context =>
      cases hl : env.levelOf (args.getD 2 []) with
      | none => rfl
      | some lvl =>
        simp only [ErrPrint_true]
        by_cases hm1 : lvl = -1
        · rw [if_pos hm1]
        · rw [if_neg hm1]
          by_cases hdbg : lvl = kPmLogLevel_Debug
          · rw [if_pos hdbg]
            by_cases h5 : 5 ≤ args.length
            · rw [if_pos h5]
            · rw [if_neg h5]
              simp [emitLogString_silent]
          · rw [if_neg hdbg]
            by_cases he : args.length = 4
            · rw [if_pos he]
              simp [emitLogString_silent]
            · rw [if_neg he]
              have hkv := kvLoop_silent (args.drop 4) 4 bufInit 0 false
              rcases hk : kvLoop true (args.drop 4) 4 bufInit 0 false with ⟨outs, res⟩
              rw [hk] at hkv
              cases res with
              | error r => exact hkv
              | ok buf =>
                have houts : outs = [] := hkv
                simp [houts, emitLogString_silent]

theorem ShowUsage_silent (env : Env) : ShowUsage env true = [] := by rfl

theorem dispatch_silent (env : Env) (cmd : CStr) (args : List CStr)
    (out : Result × List Output × List Effect)
    (h : dispatch env true cmd args = some out) : out.2.1 = [] := by
  unfold dispatch at h
  by_cases h1 : cmd = toL "def"
  · rw [if_pos h1] at h
    cases h
    exact DoCmdDef_silent env args
  · rw [if_neg h1] at h
    by_cases h2 : cmd = toL "log"
    · rw [if_pos h2] at h
      cases h
      exact DoCmdLog_silent env args
    · rw [if_neg h2] at h
      by_cases h3 : cmd = toL "logkv"
      · rw [if_pos h3] at h
        cases h
        exact DoCmdLogKV_silent env args
      · rw [if_neg h3] at h
        by_cases hk : cmd = toL "klog"
        · rw [if_pos hk] at h
          cases h
          exact DoCmdKLog_silent env args
        · rw [if_neg hk] at h
          by_cases h5 : cmd = toL "reconf"
          · rw [if_pos h5] at h
            cases h
            exact DoCmdReConf_silent env args
          · rw [if_neg h5] at h
            by_cases h6 : cmd = toL "set"
            · rw [if_pos h6] at h
              cases h
              exact DoCmdSet_silent env args
            · rw [if_neg h6] at h
              by_cases h7 : cmd = toL "show"
              · rw [if_pos h7] at h
                cases h
                exact DoCmdShow_silent env args
              · rw [if_neg h7] at h
                by_cases h8 : cmd = toL "view"
                · rw [if_pos h8] at h
                  cases h
                · rw [if_neg h8] at h
                  by_cases h9 : cmd = toL "flush"
                  · rw [if_pos h9] at h
                    cases h
                    exact DoCmdFlush_silent env
                  · rw [if_neg h9] at h
                    by_cases h10 : cmd = toL "help" ∨ cmd = toL "-help"
                    · rw [if_pos h10] at h
                      cases h
                      exact ShowUsage_silent env
                    · rw [if_neg h10] at h
                      cases h
                      rfl

/-- C9 (amended): the `-s` flag suppresses ALL of the tool's own output:
with `-s` set, neither informational nor error messages are emitted (the
two print macros InfoPrint and ErrPrint, PmLogCtl.h:45–55, are both
gated on flag_silence), contrary to the claim that error output survives
`-s` unchanged.  For every invocation inside the model (every command
but "view") whose argv selects `-s`, the output list is empty. -/
theorem C9_silence_suppresses_all (env : Env) (argv : List CStr)
    (res : Result) (outs : List Output) (effs : List Effect)
    (hs : (argv.getD 1 []).take 2 = toL "-s")
    (h : mainModel env argv = some (res, outs, effs)) :
    outs = [] := by
  have hlen : 2 ≤ argv.length := by
    by_contra hc
    push_neg at hc
    rw [List.getD_eq_default _ _ (by omega)] at hs
    simp [toL] at hs
  have hsil : (decide (2 ≤ argv.length) && ((argv.getD 1 []).take 2 == toL "-s")) = true := by
    rw [decide_eq_true hlen]
    simp only [Bool.true_and, beq_iff_eq]
    exact hs
  unfold mainModel at h
  simp only [hsil] at h
  rw [if_neg (by omega)] at h
  rw [if_pos hs] at h
  by_cases h2 : 2 < argv.length
  · rw [if_pos h2] at h
    cases hd : dispatch env true (argv.getD 2 []) (argv.drop 2) with
    | none => rw [hd] at h; exact absurd h (by simp)
    | some out =>
      have hout := dispatch_silent env _ _ _ hd
      rw [hd] at h
      obtain ⟨r, o, e⟩ := out
      simp only at hout
      subst hout
      simp only [ErrPrint_true, List.append_nil, ite_self, Option.some.injEq,
        Prod.mk.injEq] at h
      exact h.2.1.symm
  · rw [if_neg h2] at h
    simp only [ErrPrint_true, List.append_nil, ite_self, Option.some.injEq,
      Prod.mk.injEq] at h
    exact h.2.1.symm

/-- Witness for C9 on a concrete silenced run with a parameter error. -/
theorem C9_silence_suppresses_all_w :
    mainModel envKV [toL "PmLogCtl", toL "-s", toL "set", toL "nope", toL "err"]
        = some (.RESULT_PARAM_ERR, [], []) ∧ ([] : List Output) = [] :=
  ⟨by rfl,
   C9_silence_suppresses_all envKV
     [toL "PmLogCtl", toL "-s", toL "set", toL "nope", toL "err"]
     .RESULT_PARAM_ERR [] [] (by rfl) (by rfl)⟩

/-- C9 counterexample: an invalid command prints two error lines without
`-s` but prints nothing at all with `-s`, so error messages are NOT
emitted "exactly as without -s". -/
theorem C9_cex :
    mainModel envKV [toL "PmLogCtl", toL "badcmd"]
        = some (.RESULT_PARAM_ERR,
            [.err (.invalidCommand (toL "badcmd")), .err .suggestHelp], []) ∧
    mainModel envKV [toL "PmLogCtl", toL "-s", toL "badcmd"]
        = some (.RESULT_PARAM_ERR, [], []) :=
  ⟨by rfl, by rfl⟩

end PmLogCtl
